import Mathlib

/-!
Verification development for the konvato betslip-conversion core.

The definitions below are a shallow embedding of the Python sources
`automation/market_matcher.py`, `automation/bookmaker_adapters.py` and
`automation/parallel_browser_manager.py` (plus the `Selection` data model from
`automation/models_backup.py`).  Python floats are modelled as rationals (ℚ),
Python dicts as insertion-ordered association lists, raised exceptions as
`Except`, and `datetime`/`time.time()` values as natural-number timestamps
supplied explicitly by the caller.
-/

set_option allowUnsafeReducibility true

attribute [semireducible] Rat.add Rat.mul Rat.div Rat.sub Rat.neg Rat.inv Rat.normalize mkRat Rat.ofScientific Rat.maybeNormalize Nat.instDecidableCoprime

namespace Konvato

/-! ## Python string primitives -/

/-- Python word character test used by the regexes in
`BookmakerAdapter._apply_common_normalizations` (`\w` = alphanumeric or
underscore; the sources only ever contain ASCII). -/
def isWordChar (c : Char) : Bool := c.isAlphanum || c = '_'

/-- Case-insensitive prefix test on character lists (ASCII lowering, matching
Python's `str.lower` on the repository's ASCII data). -/
def ciHasPrefixOf : List Char → List Char → Bool
  | [], _ => true
  | _ :: _, [] => false
  | p :: ps, c :: cs => (p.toLower = c.toLower) && ciHasPrefixOf ps cs

/-- Auxiliary scan for `pyIn`. -/
def pyInAux (pat : List Char) : List Char → Bool
  | [] => pat.isEmpty
  | s@(_ :: rest) => pat.isPrefixOf s || pyInAux pat rest

/-- Python's substring containment test `needle in hay`. -/
def pyIn (needle hay : String) : Bool := pyInAux needle.data hay.data

/-- Python `str.lower` (ASCII lowering, like `String.toLower`). -/
def pyLower (s : String) : String := String.mk (s.data.map Char.toLower)

/-- Python `str.strip()` — remove leading and trailing whitespace. -/
def pyStrip (s : String) : String :=
  String.mk (((s.data.dropWhile Char.isWhitespace).reverse.dropWhile Char.isWhitespace).reverse)

/-- Replacement of every occurrence of the pattern `p :: ps` by `rep`,
scanning left to right without rescanning replacements — the behaviour of
Python `str.replace` (and of `String.replace`) for nonempty patterns. -/
def replaceAllAux (p : Char) (ps rep : List Char) : Nat → List Char → List Char
  | _, [] => []
  | 0, s => s
  | fuel + 1, c :: rest =>
    if (p :: ps).isPrefixOf (c :: rest) then
      rep ++ replaceAllAux p ps rep fuel (rest.drop ps.length)
    else
      c :: replaceAllAux p ps rep fuel rest

/-- Python `str.replace` (the source dictionaries contain no empty keys; the
fuel argument of the scan is the string length, which bounds the recursion). -/
def pyReplace (s pat rep : String) : String :=
  match pat.data with
  | [] => s
  | p :: ps => String.mk (replaceAllAux p ps rep.data s.data.length s.data)

/-- Auxiliary scan for `pySplit` (`cur` is the current word, reversed). -/
def splitWsAux : List Char → List Char → List String
  | cur, [] => if cur = [] then [] else [String.mk cur.reverse]
  | cur, c :: rest =>
    if c.isWhitespace then
      if cur = [] then splitWsAux [] rest
      else String.mk cur.reverse :: splitWsAux [] rest
    else splitWsAux (c :: cur) rest

/-- Python `str.split()` — split on whitespace runs, discarding empties. -/
def pySplit (s : String) : List String := splitWsAux [] s.data

/-- Insert-or-overwrite on an insertion-ordered association list, mirroring
Python dict assignment `m[k] = v` (the entry keeps its position if the key is
already present, otherwise it is appended). -/
def assocSet {α : Type} (m : List (String × α)) (k : String) (v : α) : List (String × α) :=
  if m.any (fun e => e.1 = k) then m.map (fun e => if e.1 = k then (k, v) else e)
  else m ++ [(k, v)]

/-! ## Errors raised by the embedded Python code -/

/-- Exceptions raised by the embedded code: `get_bookmaker_adapter` raises
`ValueError` for an unknown bookmaker id. -/
inductive PyErr where
  | unsupportedBookmaker (id : String)
deriving DecidableEq

/-! ## Odds comparison (`MarketMatcher.compare_odds`) -/

/-- Value of the `difference` component returned by `compare_odds`: either a
finite difference or Python's `float('inf')`. -/
inductive OddsDiff where
  | infinite : OddsDiff
  | finite (q : ℚ) : OddsDiff
deriving DecidableEq

/-- Default odds tolerance from `MarketMatcher.__init__` / `create_market_matcher`. -/
def default_odds_tolerance : ℚ := 0.05

/-- Embedding of `MarketMatcher.compare_odds`.  `odds_tolerance` is the
matcher's configured tolerance (`self.odds_tolerance`); `tolerance` is the
per-call optional tolerance (`None` falls back to the configured one). -/
def compare_odds (odds_tolerance original_odds target_odds : ℚ) (tolerance : Option ℚ) :
    Bool × OddsDiff :=
  let tol := tolerance.getD odds_tolerance
  if original_odds ≤ 0 ∨ target_odds ≤ 0 then (false, .infinite)
  else
    let difference := |original_odds - target_odds|
    (decide (difference ≤ tol), .finite difference)

/-- Claim C5: for strictly positive odds the pair is within tolerance iff the
absolute difference is at most the (caller-supplied or default) tolerance;
`compare_odds` is reflexive for positive odds and nonnegative tolerance, and
symmetric on all inputs. -/
theorem compare_odds_tolerance_refl_symm (dtol a b o t : ℚ) (topt : Option ℚ)
    (ha : 0 < a) (hb : 0 < b) (ho : 0 < o) (ht : 0 ≤ t) :
    ((compare_odds dtol a b topt).1 = true ↔ |a - b| ≤ topt.getD dtol)
    ∧ (compare_odds dtol o o (some t)).1 = true
    ∧ (∀ x y : ℚ, ∀ s : Option ℚ, compare_odds dtol x y s = compare_odds dtol y x s)
    ∧ ((compare_odds dtol a b none).1 = true ↔ |a - b| ≤ dtol) := by
  refine ⟨?_, ?_, ?_, ?_⟩
  · simp only [compare_odds]
    rw [if_neg]
    · simp
    · push_neg
      exact ⟨ha, hb⟩
  · simp only [compare_odds]
    rw [if_neg]
    · simp [ht]
    · push_neg
      exact ⟨ho, ho⟩
  · intro x y s
    simp only [compare_odds]
    by_cases hx : x ≤ 0 ∨ y ≤ 0
    · rw [if_pos hx, if_pos (Or.symm hx)]
    · rw [if_neg hx, if_neg (fun h => hx (Or.symm h)), abs_sub_comm]
  · simp only [compare_odds]
    rw [if_neg]
    · simp
    · push_neg
      exact ⟨ha, hb⟩

/-- Witness for `compare_odds_tolerance_refl_symm` at concrete inputs. -/
theorem compare_odds_tolerance_refl_symm_witness :
    ((compare_odds (1/20) (5/2) (49/20) none).1 = true ↔ |(5/2 : ℚ) - 49/20| ≤ (1/20 : ℚ))
    ∧ (compare_odds (1/20) 2 2 (some 0)).1 = true := by
  have h := compare_odds_tolerance_refl_symm (1/20) (5/2) (49/20) 2 0 none
    (by norm_num) (by norm_num) (by norm_num) (le_refl 0)
  exact ⟨h.2.2.2, h.2.1⟩

/-! ## difflib.SequenceMatcher

Embedding of CPython's `difflib.SequenceMatcher(None, a, b).ratio()` for
strings: `ratio = 2 * M / (len a + len b)` where `M` is the total size of the
matching blocks found by the Ratcliff–Obershelp recursion around
`find_longest_match`.  Bounded recursions of the Python implementation are
modelled with an explicit fuel argument that is always supplied large enough. -/

namespace PySeqMatcher

/-- Append position `i` of character `c` to the `b2j` association list
(mirrors `b2j.setdefault(elt, []).append(i)`; positions stay ascending). -/
def addPos : List (Char × List Nat) → Char → Nat → List (Char × List Nat)
  | [], c, i => [(c, [i])]
  | (c0, ps) :: rest, c, i =>
    if c0 = c then (c0, ps ++ [i]) :: rest else (c0, ps) :: addPos rest c i

/-- The `b2j` index of `SequenceMatcher.__chain_b`, including the `autojunk`
popularity filter (elements occurring more than 1% of the time are dropped
when `len b ≥ 200`). -/
def buildB2j (b : List Char) : List (Char × List Nat) :=
  let m := b.enum.foldl (fun m e => addPos m e.2 e.1) []
  if b.length ≥ 200 then
    let ntest := b.length / 100 + 1
    m.filter (fun e => ¬ e.2.length > ntest)
  else m

/-- Result of `find_longest_match`: block start in `a`, start in `b`, size. -/
structure Best where
  i : Nat
  j : Nat
  size : Nat
deriving DecidableEq

/-- Inner loop of `find_longest_match` for one position `i` of `a`: walks the
positions of `a[i]` inside `b` (restricted to `[blo, bhi)`), building the new
`j2len` row and updating the running best block. -/
def flmRow (b2j : List (Char × List Nat)) (blo bhi : Nat) (aI : Char)
    (j2len : List (Nat × Nat)) (i : Nat) (best : Best) : List (Nat × Nat) × Best :=
  let js := ((List.lookup aI b2j).getD []).filter (fun j => decide (blo ≤ j ∧ j < bhi))
  js.foldl
    (fun acc j =>
      let k := (if j = 0 then 0 else (List.lookup (j - 1) j2len).getD 0) + 1
      let best' := if k > acc.2.size then Best.mk (i + 1 - k) (j + 1 - k) k else acc.2
      ((j, k) :: acc.1, best'))
    ([], best)

/-- Outer loop of `find_longest_match` over `i ∈ [alo, ahi)` (fuel counts the
remaining iterations, `ahi - alo` at the top call). -/
def flmLoop (a : List Char) (b2j : List (Char × List Nat)) (blo bhi : Nat) :
    Nat → Nat → List (Nat × Nat) → Best → Best
  | 0, _, _, best => best
  | fuel + 1, i, j2len, best =>
    let r := flmRow b2j blo bhi (a.getD i ' ') j2len i best
    flmLoop a b2j blo bhi fuel (i + 1) r.1 r.2

/-- Leftward extension of the best block over equal characters (the junk sets
are empty for `SequenceMatcher(None, a, b)`, so only equality matters). -/
def extendLeft (a b : List Char) (alo blo : Nat) : Nat → Best → Best
  | 0, best => best
  | fuel + 1, best =>
    if best.i > alo ∧ best.j > blo ∧ a.getD (best.i - 1) ' ' = b.getD (best.j - 1) ' ' then
      extendLeft a b alo blo fuel (Best.mk (best.i - 1) (best.j - 1) (best.size + 1))
    else best

/-- Rightward extension of the best block over equal characters. -/
def extendRight (a b : List Char) (ahi bhi : Nat) : Nat → Best → Best
  | 0, best => best
  | fuel + 1, best =>
    if best.i + best.size < ahi ∧ best.j + best.size < bhi ∧
        a.getD (best.i + best.size) ' ' = b.getD (best.j + best.size) ' ' then
      extendRight a b ahi bhi fuel (Best.mk best.i best.j (best.size + 1))
    else best

/-- Embedding of `SequenceMatcher.find_longest_match` on the window
`a[alo:ahi]`, `b[blo:bhi]`. -/
def findLongestMatch (a b : List Char) (b2j : List (Char × List Nat))
    (alo ahi blo bhi : Nat) : Best :=
  let best := flmLoop a b2j blo bhi (ahi - alo) alo [] (Best.mk alo blo 0)
  let best := extendLeft a b alo blo best.i best
  extendRight a b ahi bhi (ahi - best.i - best.size) best

/-- Total size of the matching blocks (the quantity summed by
`SequenceMatcher.ratio` over `get_matching_blocks`): recursion around each
longest match, with fuel bounding the recursion depth. -/
def matchTotal (a b : List Char) (b2j : List (Char × List Nat)) :
    Nat → Nat → Nat → Nat → Nat → Nat
  | 0, _, _, _, _ => 0
  | fuel + 1, alo, ahi, blo, bhi =>
    let best := findLongestMatch a b b2j alo ahi blo bhi
    if best.size = 0 then 0
    else
      matchTotal a b b2j fuel alo best.i blo best.j + best.size +
        matchTotal a b b2j fuel (best.i + best.size) ahi (best.j + best.size) bhi

/-- Embedding of `SequenceMatcher(None, a, b).ratio()`. -/
def ratio (sa sb : String) : ℚ :=
  let a := sa.data
  let b := sb.data
  let b2j := buildB2j b
  let mtotal := matchTotal a b b2j (a.length + b.length + 1) 0 a.length 0 b.length
  let total := a.length + b.length
  if total = 0 then 1 else 2 * (mtotal : ℚ) / (total : ℚ)

end PySeqMatcher

/-! ## Bookmaker adapters (`bookmaker_adapters.py`)

`BookmakerConfig` is embedded with the fields consumed by the matching engine
(`id`, `name`, URLs, `market_mappings`, `team_name_normalizations`,
`supported`); the `dom_selectors` dictionaries are CSS selector data never read
by any code under verification and are omitted. -/

/-- Embedding of `models.BookmakerConfig` (dicts as insertion-ordered lists). -/
structure BookmakerConfig where
  id : String
  name : String
  base_url : String
  betslip_url_pattern : String
  betting_url : String
  market_mappings : List (String × String)
  team_name_normalizations : List (String × String)
  supported : Bool
deriving DecidableEq

/-- Word-boundary test of the regexes `\b...\b`: a boundary sits between two
context characters (``none`` = beyond either end of the string) iff exactly
one of them is a word character. -/
def isBoundary (left right : Option Char) : Bool :=
  (left.elim false isWordChar) != (right.elim false isWordChar)

/-- Case-insensitive replacement of the literal word-boundary pattern
`\b(p :: ps)\b` by `rep`, scanning left to right without rescanning the
replacement — the behaviour of `re.sub(r'\b<pat>\b', rep, s, flags=IGNORECASE)`
for the literal patterns of `_apply_common_normalizations`.  `prev` is the
original character preceding the scan position. -/
def wbSubAux (p : Char) (ps rep : List Char) : Nat → Option Char → List Char → List Char
  | _, _, [] => []
  | 0, _, s => s
  | fuel + 1, prev, c :: rest =>
    if ciHasPrefixOf (p :: ps) (c :: rest)
        ∧ isBoundary prev (some p)
        ∧ isBoundary (some ((c :: rest).getD ps.length c)) (rest.drop ps.length).head? then
      rep ++ wbSubAux p ps rep fuel (some ((c :: rest).getD ps.length c))
        (rest.drop ps.length)
    else
      c :: wbSubAux p ps rep fuel (some c) rest

/-- Word-boundary substitution on strings (empty patterns do not occur in the
source dictionaries; the fuel argument is the string length, bounding the
scan). -/
def wbSub (pat rep s : String) : String :=
  match pat.data with
  | [] => s
  | p :: ps => String.mk (wbSubAux p ps rep.data s.data.length none s.data)

/-- Auxiliary scan for `collapseWs`; the flag records whether the previous
character was whitespace (in which case further whitespace emits nothing). -/
def collapseWsAux : Bool → List Char → List Char
  | _, [] => []
  | inWs, c :: rest =>
    if c.isWhitespace then
      if inWs then collapseWsAux true rest else ' ' :: collapseWsAux true rest
    else c :: collapseWsAux false rest

/-- Collapse of whitespace runs to single spaces (`re.sub(r'\s+', ' ', name)`). -/
def collapseWs (s : List Char) : List Char := collapseWsAux false s

/-- The `common_normalizations` table of
`BookmakerAdapter._apply_common_normalizations` (each key is the literal word
between the `\b` anchors of the corresponding regex). -/
def common_normalizations : List (String × String) :=
  [("FC", ""), ("F.C.", ""), ("F.C", ""), ("United", "Utd"), ("Athletic", "Ath"),
   ("Athletics", "Ath"), ("Real", "R."), ("Club", "C."), ("Sporting", "Sport"),
   ("Internacional", "Int"), ("Manchester", "Man"), ("Liverpool", "Pool")]

/-- Embedding of `BookmakerAdapter._apply_common_normalizations`: the regex
substitutions in table order, then whitespace collapsing with strip, then
removal of characters that are neither word characters nor whitespace. -/
def apply_common_normalizations (name : String) : String :=
  let name := common_normalizations.foldl (fun n e => wbSub e.1 e.2 n) name
  let name := pyStrip (String.mk (collapseWs name.data))
  String.mk (name.data.filter (fun c => isWordChar c || c.isWhitespace))

/-- Embedding of `BookmakerAdapter.normalize_game_name`: strip, the adapter's
`team_name_normalizations` replacements in table order (`str.replace` replaces
every occurrence, case sensitively), then the common normalizations. -/
def normalize_game_name (cfg : BookmakerConfig) (game_name : String) : String :=
  let normalized := pyStrip game_name
  let normalized :=
    cfg.team_name_normalizations.foldl (fun n e => pyReplace n e.1 e.2) normalized
  apply_common_normalizations normalized

/-- Scan of the adapter's `market_mappings` table in `map_market_name`: the
first entry whose key matches exactly (case-insensitively) or by substring
containment in either direction wins. -/
def findMarketMapping (ml : String) : List (String × String) → Option String
  | [] => none
  | (standard, bm) :: rest =>
    if ml = pyLower standard then some bm
    else if pyIn ml (pyLower standard) || pyIn (pyLower standard) ml then some bm
    else findMarketMapping ml rest

/-- The `common_mappings` table of
`BookmakerAdapter._apply_common_market_mappings`. -/
def common_market_mappings : List (String × List String) :=
  [("match result", ["1x2", "full time result", "winner", "match winner"]),
   ("1x2", ["match result", "full time result", "winner"]),
   ("over/under 2.5", ["total goals over/under 2.5", "o/u 2.5", "total goals o/u 2.5"]),
   ("both teams to score", ["btts", "both teams to score - yes", "gg"]),
   ("double chance", ["dc", "1x", "12", "x2"]),
   ("handicap", ["asian handicap", "ah", "spread"]),
   ("correct score", ["exact score", "final score"])]

/-- Scan of the common-mappings table: first entry matched by membership in
its variation list, a variation occurring as a substring, or the standard name
occurring as a substring of the market. -/
def commonMarketScan (ml : String) : List (String × List String) → Option String
  | [] => none
  | (standard, variations) :: rest =>
    if variations.contains ml || variations.any (fun v => pyIn v ml) then some standard
    else if pyIn standard ml then some standard
    else commonMarketScan ml rest

/-- Embedding of `BookmakerAdapter._apply_common_market_mappings`. -/
def apply_common_market_mappings (market : String) : String :=
  ((commonMarketScan (pyStrip (pyLower market)) common_market_mappings).getD market)

/-- Embedding of `BookmakerAdapter.map_market_name`: adapter-specific mappings
first, the common mappings otherwise, the unchanged market as fallback. -/
def map_market_name (cfg : BookmakerConfig) (market : String) : String :=
  match findMarketMapping (pyStrip (pyLower market)) cfg.market_mappings with
  | some bm => bm
  | none => apply_common_market_mappings market

/-- Configuration of `Bet9jaAdapter._get_config`. -/
def bet9jaConfig : BookmakerConfig where
  id := "bet9ja"
  name := "Bet9ja"
  base_url := "https://www.bet9ja.com"
  betslip_url_pattern := "https://www.bet9ja.com/betslip/{code}"
  betting_url := "https://www.bet9ja.com/sport"
  market_mappings :=
    [("match result", "1X2"), ("1x2", "1X2"),
     ("over/under 2.5", "Over/Under 2.5 Goals"),
     ("both teams to score", "Both Teams To Score"),
     ("double chance", "Double Chance"), ("handicap", "Handicap"),
     ("correct score", "Correct Score"), ("total goals", "Total Goals"),
     ("first half result", "1st Half Result"),
     ("half time/full time", "Half Time/Full Time")]
  team_name_normalizations :=
    [("Manchester United", "Man United"), ("Manchester City", "Man City"),
     ("Tottenham Hotspur", "Tottenham"), ("Brighton & Hove Albion", "Brighton"),
     ("West Ham United", "West Ham"), ("Newcastle United", "Newcastle"),
     ("Wolverhampton Wanderers", "Wolves"), ("Leicester City", "Leicester"),
     ("Crystal Palace", "C Palace"), ("Sheffield United", "Sheffield Utd"),
     ("Real Madrid", "R Madrid"), ("Atletico Madrid", "A Madrid"),
     ("Bayern Munich", "Bayern"), ("Borussia Dortmund", "B Dortmund"),
     ("Paris Saint-Germain", "PSG"), ("AC Milan", "Milan"), ("Inter Milan", "Inter")]
  supported := true

/-- Configuration of `SportybetAdapter._get_config`. -/
def sportybetConfig : BookmakerConfig where
  id := "sportybet"
  name := "SportyBet"
  base_url := "https://www.sportybet.com"
  betslip_url_pattern := "https://www.sportybet.com/ng/sport/betslip/{code}"
  betting_url := "https://www.sportybet.com/ng/sport"
  market_mappings :=
    [("match result", "Match Result"), ("1x2", "Match Result"),
     ("over/under 2.5", "Total Goals Over/Under 2.5"),
     ("both teams to score", "Both Teams To Score"),
     ("double chance", "Double Chance"), ("handicap", "Asian Handicap"),
     ("correct score", "Correct Score"), ("total goals", "Total Goals"),
     ("first half result", "1st Half Result"),
     ("half time/full time", "Half Time/Full Time"),
     ("draw no bet", "Draw No Bet"), ("goal line", "Goal Line")]
  team_name_normalizations :=
    [("Manchester United", "Manchester Utd"), ("Manchester City", "Man City"),
     ("Tottenham Hotspur", "Tottenham"), ("Brighton & Hove Albion", "Brighton"),
     ("West Ham United", "West Ham"), ("Newcastle United", "Newcastle"),
     ("Wolverhampton Wanderers", "Wolverhampton"), ("Leicester City", "Leicester"),
     ("Crystal Palace", "Crystal Palace"), ("Sheffield United", "Sheffield Utd"),
     ("Real Madrid", "Real Madrid"), ("Atletico Madrid", "Atletico Madrid"),
     ("Bayern Munich", "Bayern Munich"), ("Borussia Dortmund", "Dortmund"),
     ("Paris Saint-Germain", "Paris SG"), ("AC Milan", "AC Milan"),
     ("Inter Milan", "Inter Milan"), ("Juventus", "Juventus"),
     ("Barcelona", "Barcelona"), ("Chelsea", "Chelsea"), ("Arsenal", "Arsenal"),
     ("Liverpool", "Liverpool")]
  supported := true

/-- Configuration of `BetwayAdapter._get_config`. -/
def betwayConfig : BookmakerConfig where
  id := "betway"
  name := "Betway"
  base_url := "https://www.betway.com"
  betslip_url_pattern := "https://www.betway.com/betslip/{code}"
  betting_url := "https://www.betway.com/sport"
  market_mappings :=
    [("match result", "Match Result"), ("1x2", "Match Result"),
     ("over/under 2.5", "Over/Under 2.5 Goals"),
     ("both teams to score", "Both Teams to Score"),
     ("double chance", "Double Chance"), ("handicap", "Handicap"),
     ("correct score", "Correct Score"), ("total goals", "Total Goals"),
     ("first half result", "First Half Result"),
     ("half time/full time", "Half Time/Full Time"),
     ("draw no bet", "Draw No Bet"), ("clean sheet", "Clean Sheet"),
     ("anytime goalscorer", "Anytime Goalscorer")]
  team_name_normalizations :=
    [("Manchester United", "Man Utd"), ("Manchester City", "Man City"),
     ("Tottenham Hotspur", "Tottenham"), ("Brighton & Hove Albion", "Brighton"),
     ("West Ham United", "West Ham"), ("Newcastle United", "Newcastle"),
     ("Wolverhampton Wanderers", "Wolves"), ("Leicester City", "Leicester"),
     ("Crystal Palace", "Crystal Palace"), ("Sheffield United", "Sheffield Utd"),
     ("Real Madrid", "Real Madrid"), ("Atletico Madrid", "Atletico Madrid"),
     ("Bayern Munich", "Bayern Munich"), ("Borussia Dortmund", "Borussia Dortmund"),
     ("Paris Saint-Germain", "PSG"), ("AC Milan", "AC Milan"),
     ("Inter Milan", "Inter"), ("Juventus", "Juventus"),
     ("Barcelona", "Barcelona"), ("Chelsea", "Chelsea"), ("Arsenal", "Arsenal"),
     ("Liverpool", "Liverpool")]
  supported := true

/-- Configuration of `Bet365Adapter._get_config`. -/
def bet365Config : BookmakerConfig where
  id := "bet365"
  name := "Bet365"
  base_url := "https://www.bet365.com"
  betslip_url_pattern := "https://www.bet365.com/betslip/{code}"
  betting_url := "https://www.bet365.com/sport"
  market_mappings :=
    [("match result", "Result"), ("1x2", "Result"),
     ("over/under 2.5", "Goals Over/Under"),
     ("both teams to score", "Both Teams to Score"),
     ("double chance", "Double Chance"), ("handicap", "Asian Handicap"),
     ("correct score", "Correct Score"), ("total goals", "Total Goals"),
     ("first half result", "Half Time Result"),
     ("half time/full time", "Half Time/Full Time"),
     ("draw no bet", "Draw No Bet"), ("clean sheet", "To Keep a Clean Sheet"),
     ("anytime goalscorer", "Goalscorer")]
  team_name_normalizations :=
    [("Manchester United", "Man Utd"), ("Manchester City", "Man City"),
     ("Tottenham Hotspur", "Tottenham"), ("Brighton & Hove Albion", "Brighton"),
     ("West Ham United", "West Ham"), ("Newcastle United", "Newcastle"),
     ("Wolverhampton Wanderers", "Wolves"), ("Leicester City", "Leicester"),
     ("Crystal Palace", "Crystal Palace"), ("Sheffield United", "Sheffield Utd"),
     ("Real Madrid", "Real Madrid"), ("Atletico Madrid", "Atletico Madrid"),
     ("Bayern Munich", "Bayern Munich"), ("Borussia Dortmund", "Borussia Dortmund"),
     ("Paris Saint-Germain", "Paris SG"), ("AC Milan", "AC Milan"),
     ("Inter Milan", "Inter Milan"), ("Juventus", "Juventus"),
     ("Barcelona", "Barcelona"), ("Chelsea", "Chelsea"), ("Arsenal", "Arsenal"),
     ("Liverpool", "Liverpool")]
  supported := true

/-- Embedding of the factory `get_bookmaker_adapter` (the id is lowercased for
the lookup; unknown ids raise, modelled by `none`). -/
def get_bookmaker_adapter (bookmaker_id : String) : Option BookmakerConfig :=
  let k := pyLower bookmaker_id
  if k = "bet9ja" then some bet9jaConfig
  else if k = "sportybet" then some sportybetConfig
  else if k = "betway" then some betwayConfig
  else if k = "bet365" then some bet365Config
  else none

/-- The factory as an `Except`, propagating the `ValueError` of the source. -/
def getAdapterE (bookmaker_id : String) : Except PyErr BookmakerConfig :=
  match get_bookmaker_adapter bookmaker_id with
  | some cfg => .ok cfg
  | none => .error (.unsupportedBookmaker bookmaker_id)

/-! ## The matching engine (`market_matcher.py`) -/

/-- Embedding of `models.Selection` (the event timestamp is a natural
number). -/
structure Selection where
  game_id : String
  home_team : String
  away_team : String
  market : String
  odds : ℚ
  event_date : Nat
  league : String
  original_text : String
deriving DecidableEq

/-- One market of a candidate game supplied by the destination bookmaker
(`{'name': ..., 'odds': ...}` dictionaries in `match_selection`). -/
structure CandidateMarket where
  name : String
  odds : ℚ
deriving DecidableEq

/-- One candidate game supplied by the destination bookmaker
(`{'home_team': ..., 'away_team': ..., 'markets': [...]}`). -/
structure CandidateGame where
  home_team : String
  away_team : String
  markets : List CandidateMarket
deriving DecidableEq

/-- Embedding of the `GameAvailability` dataclass. -/
structure GameAvailability where
  available : Bool
  game_name : Option String := none
  home_team : Option String := none
  away_team : Option String := none
  markets : List CandidateMarket := []
  confidence : ℚ := 0
deriving DecidableEq

/-- Warning messages produced by the matcher, one constructor per literal
f-string of the source (arguments carry the interpolated data). -/
inductive Warning where
  | gameNotFound (home away : String)
  | couldNotFindMatchingGameData
  | marketNotAvailable (market : String)
  | noValidOddsFound
  | oddsDifferenceTooLarge (difference : OddsDiff)
deriving DecidableEq

/-- Embedding of the `MatchResult` dataclass. -/
structure MatchResult where
  success : Bool
  confidence : ℚ
  matched_game : Option String := none
  matched_market : Option String := none
  matched_odds : Option ℚ := none
  original_odds : Option ℚ := none
  odds_difference : Option OddsDiff := none
  warnings : List Warning := []
deriving DecidableEq

/-- The abbreviation dictionary of `MarketMatcher._check_abbreviation_match`. -/
def abbreviations : List (String × List String) :=
  [("manchester united", ["man utd", "man united", "mufc"]),
   ("manchester city", ["man city", "mcfc"]),
   ("tottenham hotspur", ["tottenham", "spurs", "thfc"]),
   ("arsenal", ["arsenal fc", "afc"]),
   ("chelsea", ["chelsea fc", "cfc"]),
   ("liverpool", ["liverpool fc", "lfc"]),
   ("real madrid", ["r madrid", "real", "rmcf"]),
   ("barcelona", ["barca", "fcb", "fc barcelona"]),
   ("bayern munich", ["bayern", "fcb munich"]),
   ("paris saint-germain", ["psg", "paris sg"]),
   ("ac milan", ["milan", "acm"]),
   ("inter milan", ["inter", "internazionale"]),
   ("atletico madrid", ["atletico", "atm", "a madrid"]),
   ("borussia dortmund", ["dortmund", "bvb", "b dortmund"])]

/-- Embedding of `MarketMatcher._check_abbreviation_match`. -/
def check_abbreviation_match (team1 team2 : String) : ℚ :=
  let t1 := pyStrip (pyLower team1)
  let t2 := pyStrip (pyLower team2)
  if abbreviations.any (fun e =>
      (t1 = e.1 && e.2.contains t2) || (t2 = e.1 && e.2.contains t1) ||
      (e.2.contains t1 && e.2.contains t2)) then 0.9
  else if t1.length ≤ 4 ∧ pyIn t1 t2 then 0.7
  else if t2.length ≤ 4 ∧ pyIn t2 t1 then 0.7
  else 0.0

/-- Embedding of `MarketMatcher._calculate_team_similarity`: a weighted blend
of the `SequenceMatcher` ratio, word-set Jaccard similarity, a substring
bonus and the abbreviation bonus, clamped to at most 1. -/
def calculate_team_similarity (team1 team2 : String) : ℚ :=
  if team1 = "" ∨ team2 = "" then 0.0
  else if pyLower team1 = pyLower team2 then 1.0
  else
    let sequence_similarity := PySeqMatcher.ratio (pyLower team1) (pyLower team2)
    let words1 := (pySplit (pyLower team1)).dedup
    let words2 := (pySplit (pyLower team2)).dedup
    let word_similarity : ℚ :=
      if words1 = [] ∨ words2 = [] then 0.0
      else
        let inter := (words1.filter (fun w => words2.contains w)).length
        let union := (words1 ++ words2.filter (fun w => ¬ words1.contains w)).length
        if union > 0 then (inter : ℚ) / (union : ℚ) else 0.0
    let substring_similarity : ℚ :=
      if pyIn (pyLower team1) (pyLower team2) || pyIn (pyLower team2) (pyLower team1) then 0.8 else 0.0
    let abbrev_similarity := check_abbreviation_match team1 team2
    let total :=
      sequence_similarity * 0.4 + word_similarity * 0.3 +
        substring_similarity * 0.2 + abbrev_similarity * 0.1
    min total 1.0

/-- Embedding of `MarketMatcher.fuzzy_match_team_names`: normalize all four
names through the bookmaker adapters (an unknown bookmaker raises) and return
the better of the preserved and swapped orientations with the orientation
flag. -/
def fuzzy_match_team_names (source_home source_away target_home target_away
    source_bookmaker target_bookmaker : String) : Except PyErr (ℚ × Bool) := do
  let source_adapter ← getAdapterE source_bookmaker
  let target_adapter ← getAdapterE target_bookmaker
  let norm_source_home := normalize_game_name source_adapter source_home
  let norm_source_away := normalize_game_name source_adapter source_away
  let norm_target_home := normalize_game_name target_adapter target_home
  let norm_target_away := normalize_game_name target_adapter target_away
  let home_similarity_normal := calculate_team_similarity norm_source_home norm_target_home
  let away_similarity_normal := calculate_team_similarity norm_source_away norm_target_away
  let normal_score := (home_similarity_normal + away_similarity_normal) / 2
  let home_similarity_swapped := calculate_team_similarity norm_source_home norm_target_away
  let away_similarity_swapped := calculate_team_similarity norm_source_away norm_target_home
  let swapped_score := (home_similarity_swapped + away_similarity_swapped) / 2
  if normal_score ≥ swapped_score then return (normal_score, false)
  else return (swapped_score, true)

/-- State of the best-candidate loop in `check_game_availability`:
`(best_match, best_confidence, best_markets)`. -/
abbrev GameLoopState := Option CandidateGame × ℚ × List CandidateMarket

/-- One iteration of the candidate loop of `check_game_availability`: games
with a missing team name are skipped, strictly better confidences replace the
running best. -/
def gameLoopStep (sel : Selection) (bookmaker : String) (st : GameLoopState)
    (game : CandidateGame) : Except PyErr GameLoopState := do
  if game.home_team = "" ∨ game.away_team = "" then return st
  let r ← fuzzy_match_team_names sel.home_team sel.away_team
    game.home_team game.away_team "bet9ja" bookmaker
  if r.1 > st.2.1 then return (some game, r.1, game.markets) else return st

/-- Embedding of `MarketMatcher.check_game_availability`: empty candidate
lists are unavailable with confidence 0; otherwise the best candidate by team
similarity is selected and the game is available iff that best confidence
reaches the 0.7 threshold. -/
def check_game_availability (sel : Selection) (bookmaker : String)
    (available_games : List CandidateGame) : Except PyErr GameAvailability := do
  if available_games = [] then return { available := false, confidence := 0 }
  let _adapter ← getAdapterE bookmaker
  let st ← available_games.foldlM (gameLoopStep sel bookmaker) ((none, 0, []) : GameLoopState)
  let available := decide (st.2.1 ≥ 0.7)
  match st.1 with
  | some best_match =>
    if available then
      return { available := true,
               game_name := some (best_match.home_team ++ " vs " ++ best_match.away_team),
               home_team := some best_match.home_team,
               away_team := some best_match.away_team,
               markets := st.2.2, confidence := st.2.1 }
    else return { available := false, confidence := st.2.1 }
  | none => return { available := false, confidence := st.2.1 }

/-- Embedding of `MarketMatcher._calculate_market_mapping_confidence`. -/
def calculate_market_mapping_confidence (original normalized mapped : String) : ℚ :=
  if original = normalized ∧ normalized = mapped then 0.6
  else if original ≠ mapped then 0.9
  else if original ≠ normalized then 0.8
  else 0.7

/-- The computation performed by `MarketMatcher.map_market_across_bookmakers`
on a cache miss: source-side normalization, destination-side mapping, and the
mapping confidence. -/
def map_market_uncached (market source_bookmaker target_bookmaker : String) :
    Except PyErr (String × ℚ) := do
  let source_adapter ← getAdapterE source_bookmaker
  let target_adapter ← getAdapterE target_bookmaker
  let normalized_market := map_market_name source_adapter market
  let target_market := map_market_name target_adapter normalized_market
  return (target_market, calculate_market_mapping_confidence market normalized_market target_market)

/-- The memoization cache `MarketMatcher._market_mapping_cache`, keyed by the
string `f"{source}_{target}_{market.lower()}"`. -/
abbrev MappingCache := List (String × (String × ℚ))

/-- The cache key of `map_market_across_bookmakers`. -/
def mappingCacheKey (source_bookmaker target_bookmaker market : String) : String :=
  source_bookmaker ++ "_" ++ target_bookmaker ++ "_" ++ pyLower market

/-- Embedding of `MarketMatcher.map_market_across_bookmakers` with its cache
made explicit: a hit returns the cached pair unchanged, a miss computes the
mapping and stores it under the key. -/
def map_market_across_bookmakers (cache : MappingCache)
    (market source_bookmaker target_bookmaker : String) :
    Except PyErr ((String × ℚ) × MappingCache) := do
  let cache_key := mappingCacheKey source_bookmaker target_bookmaker market
  match List.lookup cache_key cache with
  | some result => return (result, cache)
  | none =>
    let result ← map_market_uncached market source_bookmaker target_bookmaker
    return (result, (cache_key, result) :: cache)

/-- The scanning loop of `check_market_availability` over the listed market
names: an exact case-insensitive match returns early (`Sum.inl`), otherwise
the best `SequenceMatcher` ratio and its market are tracked. -/
def market_scan (mapped_market : String) :
    List String → ℚ → Option String → (String ⊕ (ℚ × Option String))
  | [], best, bestM => .inr (best, bestM)
  | m :: rest, best, bestM =>
    if pyLower mapped_market = pyLower m then .inl m
    else
      let similarity := PySeqMatcher.ratio (pyLower mapped_market) (pyLower m)
      if similarity > best then market_scan mapped_market rest similarity (some m)
      else market_scan mapped_market rest best bestM

/-- Embedding of `MarketMatcher.check_market_availability` (the market
mapping is the uncached computation; the cache is modelled separately by
`map_market_across_bookmakers` and is empty for a fresh matcher). -/
def check_market_availability (sel : Selection) (bookmaker : String)
    (available_markets : List String) : Except PyErr (Bool × String × ℚ) := do
  if available_markets = [] then return (false, sel.market, 0)
  let r ← map_market_uncached sel.market "bet9ja" bookmaker
  let mapped_market := r.1
  let mapping_confidence := r.2
  match market_scan mapped_market available_markets 0 none with
  | .inl m => return (true, m, 1)
  | .inr (best_confidence, best_match) =>
    let available := decide (best_confidence ≥ 0.8)
    let final_market := if available then best_match.getD mapped_market else mapped_market
    return (available, final_market, best_confidence * mapping_confidence)

/-- The second scan of `match_selection` over the candidate list: the first
game whose fuzzy-match confidence reaches 0.7 supplies the market data. -/
def find_matching_game (sel : Selection) (bookmaker : String) :
    List CandidateGame → Except PyErr (Option CandidateGame)
  | [] => .ok none
  | game :: rest => do
    let r ← fuzzy_match_team_names sel.home_team sel.away_team
      game.home_team game.away_team "bet9ja" bookmaker
    if r.1 ≥ 0.7 then return (some game) else find_matching_game sel bookmaker rest

/-- The odds lookup of `match_selection`: the first market whose name equals
the mapped market case-insensitively supplies the odds. -/
def find_market_odds : List CandidateMarket → String → Option ℚ
  | [], _ => none
  | m :: rest, mapped => if pyLower m.name = pyLower mapped then some m.odds
    else find_market_odds rest mapped

/-- Embedding of `MarketMatcher.match_selection`: game availability, market
availability, odds lookup and odds comparison, composed into a `MatchResult`
with the `0.4/0.4/0.2` confidence blend. -/
def match_selection (odds_tolerance : ℚ) (sel : Selection) (bookmaker : String)
    (available_games : List CandidateGame) (tolerance : Option ℚ) :
    Except PyErr MatchResult := do
  let game_availability ← check_game_availability sel bookmaker available_games
  if game_availability.available = false then
    return { success := false, confidence := game_availability.confidence,
             warnings := [.gameNotFound sel.home_team sel.away_team] }
  let matching_game? ← find_matching_game sel bookmaker available_games
  match matching_game? with
  | none => return { success := false, confidence := 0,
                     warnings := [.couldNotFindMatchingGameData] }
  | some matching_game =>
    let available_markets := matching_game.markets
    let r ← check_market_availability sel bookmaker (available_markets.map (fun m => m.name))
    let market_available := r.1
    let mapped_market := r.2.1
    let market_confidence := r.2.2
    if market_available = false then
      return { success := false, confidence := market_confidence,
               matched_game := game_availability.game_name,
               warnings := [.marketNotAvailable sel.market] }
    match find_market_odds available_markets mapped_market with
    | none =>
      return { success := false, confidence := market_confidence,
               matched_game := game_availability.game_name,
               matched_market := some mapped_market,
               warnings := [.noValidOddsFound] }
    | some matched_odds =>
      if matched_odds ≤ 0 then
        return { success := false, confidence := market_confidence,
                 matched_game := game_availability.game_name,
                 matched_market := some mapped_market,
                 warnings := [.noValidOddsFound] }
      else
        let c := compare_odds odds_tolerance sel.odds matched_odds tolerance
        let warnings : List Warning :=
          if c.1 then [] else [.oddsDifferenceTooLarge c.2]
        let overall_confidence :=
          game_availability.confidence * 0.4 + market_confidence * 0.4 +
            (if c.1 then (1 : ℚ) else 0.5) * 0.2
        return { success := true, confidence := overall_confidence,
                 matched_game := game_availability.game_name,
                 matched_market := some mapped_market,
                 matched_odds := some matched_odds,
                 original_odds := some sel.odds,
                 odds_difference := some c.2,
                 warnings := warnings }

/-! ## Helper lemmas about the `Except` monad -/

/-- Bind on a successful `Except` computation applies the continuation. -/
theorem exceptBindOk {ε α β : Type} (a : α) (f : α → Except ε β) :
    (Except.ok a : Except ε α) >>= f = f a := rfl

/-- Bind on a failed `Except` computation propagates the error. -/
theorem exceptBindErr {ε α β : Type} (e : ε) (f : α → Except ε β) :
    (Except.error e : Except ε α) >>= f = Except.error e := rfl

/-- `pure` of the `Except` monad is `Except.ok`. -/
theorem exceptPureEq {ε α : Type} (a : α) : (pure a : Except ε α) = Except.ok a := rfl

/-- Decidable equality of `Except` values, used to evaluate the embedding on
concrete inputs. -/
instance {ε α : Type} [DecidableEq ε] [DecidableEq α] : DecidableEq (Except ε α)
  | .error e1, .error e2 =>
    if h : e1 = e2 then isTrue (by rw [h])
    else isFalse (fun hc => by cases hc; exact h rfl)
  | .error _, .ok _ => isFalse (fun hc => by cases hc)
  | .ok _, .error _ => isFalse (fun hc => by cases hc)
  | .ok a1, .ok a2 =>
    if h : a1 = a2 then isTrue (by rw [h])
    else isFalse (fun hc => by cases hc; exact h rfl)

/-! ## Shared concrete example data -/

/-- A concrete selection used by witnesses (the scenario of spec §8). -/
def exSelection : Selection :=
  { game_id := "g1", home_team := "Manchester United", away_team := "Liverpool",
    market := "Match Result", odds := 5/2, event_date := 1,
    league := "Premier League", original_text := "orig" }

/-- A concrete destination market list for `exSelection`. -/
def exMarkets : List CandidateMarket := [{ name := "Match Result", odds := 62/25 }]

/-- A concrete destination candidate game matching `exSelection`. -/
def exGame : CandidateGame :=
  { home_team := "Man Utd", away_team := "Liverpool", markets := exMarkets }

/-- A concrete destination candidate list matching `exSelection`. -/
def exGames : List CandidateGame := [exGame]

/-- The `GameAvailability` computed for `exSelection` against `exGames`. -/
def exAvailability : GameAvailability :=
  { available := true, game_name := some "Man Utd vs Liverpool",
    home_team := some "Man Utd", away_team := some "Liverpool",
    markets := exMarkets, confidence := 1 }

/-- Claim C1: when the game check succeeds, the market check succeeds and the
matched market lists positive odds, `match_selection` succeeds with overall
confidence `0.4 · game + 0.4 · market + 0.2 · (1 if odds within tolerance else
0.5)`, and odds outside tolerance only add an odds-difference warning. -/
theorem match_selection_composite (odds_tol : ℚ) (sel : Selection) (bk : String)
    (games : List CandidateGame) (tol : Option ℚ) (ga : GameAvailability)
    (g : CandidateGame) (mapped : String) (mconf odds : ℚ)
    (hga : check_game_availability sel bk games = .ok ga)
    (hav : ga.available = true)
    (hfg : find_matching_game sel bk games = .ok (some g))
    (hmk : check_market_availability sel bk (g.markets.map (fun m => m.name)) =
      .ok (true, mapped, mconf))
    (hod : find_market_odds g.markets mapped = some odds)
    (hpos : 0 < odds) :
    match_selection odds_tol sel bk games tol = .ok
      { success := true,
        confidence := ga.confidence * 0.4 + mconf * 0.4 +
          (if (compare_odds odds_tol sel.odds odds tol).1 then (1 : ℚ) else 0.5) * 0.2,
        matched_game := ga.game_name,
        matched_market := some mapped,
        matched_odds := some odds,
        original_odds := some sel.odds,
        odds_difference := some (compare_odds odds_tol sel.odds odds tol).2,
        warnings :=
          if (compare_odds odds_tol sel.odds odds tol).1 then []
          else [.oddsDifferenceTooLarge (compare_odds odds_tol sel.odds odds tol).2] } := by
  have hodds : ¬ odds ≤ 0 := not_le.mpr hpos
  simp only [match_selection, hga, exceptBindOk, hav, Bool.true_eq_false, if_neg,
    hfg, hmk, hod, hodds, ite_false, exceptPureEq]

/-- Witness for `match_selection_composite` on the §8 scenario data. -/
theorem match_selection_composite_witness :
    match_selection (1/20) exSelection "sportybet" exGames none = .ok
      { success := true,
        confidence := exAvailability.confidence * 0.4 + 1 * 0.4 +
          (if (compare_odds (1/20) exSelection.odds (62/25) none).1 then (1 : ℚ) else 0.5) * 0.2,
        matched_game := exAvailability.game_name,
        matched_market := some "Match Result",
        matched_odds := some (62/25),
        original_odds := some exSelection.odds,
        odds_difference := some (compare_odds (1/20) exSelection.odds (62/25) none).2,
        warnings :=
          if (compare_odds (1/20) exSelection.odds (62/25) none).1 then []
          else [.oddsDifferenceTooLarge (compare_odds (1/20) exSelection.odds (62/25) none).2] } :=
  match_selection_composite (1/20) exSelection "sportybet" exGames none exAvailability
    exGame "Match Result" 1 (62/25)
    (by decide) (by decide) (by decide) (by decide) (by decide) (by norm_num)

/-! ## Claim C3 — market availability -/

/-- The highest `SequenceMatcher` ratio of the mapped market against the
listed market names. -/
def best_market_ratio (mapped : String) (markets : List String) : ℚ :=
  markets.foldl (fun b m => max b (PySeqMatcher.ratio (pyLower mapped) (pyLower m))) 0

/-- When no listed name matches the mapped market exactly, the scanning loop
completes and its running best equals the fold of `max` over the ratios. -/
theorem market_scan_no_exact (mapped : String) : ∀ (ms : List String) (best : ℚ)
    (bm : Option String), (∀ m ∈ ms, pyLower mapped ≠ pyLower m) →
    ∃ bm2, market_scan mapped ms best bm =
      .inr (ms.foldl (fun b m => max b (PySeqMatcher.ratio (pyLower mapped) (pyLower m))) best, bm2)
  | [], best, bm, _ => ⟨bm, rfl⟩
  | m :: rest, best, bm, h => by
    have hm : pyLower mapped ≠ pyLower m := h m (List.mem_cons_self m rest)
    have hrest : ∀ m' ∈ rest, pyLower mapped ≠ pyLower m' :=
      fun m' hm' => h m' (List.mem_cons_of_mem m hm')
    simp only [market_scan, if_neg hm, List.foldl_cons]
    by_cases hgt : PySeqMatcher.ratio (pyLower mapped) (pyLower m) > best
    · obtain ⟨bm2, hr⟩ := market_scan_no_exact mapped rest
        (PySeqMatcher.ratio (pyLower mapped) (pyLower m)) (some m) hrest
      refine ⟨bm2, ?_⟩
      rw [if_pos hgt, hr, max_eq_right hgt.le]
    · obtain ⟨bm2, hr⟩ := market_scan_no_exact mapped rest best bm hrest
      refine ⟨bm2, ?_⟩
      rw [if_neg hgt, hr, max_eq_left (not_lt.mp hgt)]

/-- The scanning loop returns the first exact case-insensitive match. -/
theorem market_scan_exact (mapped : String) : ∀ (pre : List String) (m : String)
    (suf : List String) (best : ℚ) (bm : Option String),
    (∀ m' ∈ pre, pyLower mapped ≠ pyLower m') → pyLower mapped = pyLower m →
    market_scan mapped (pre ++ m :: suf) best bm = .inl m
  | [], m, suf, best, bm, _, hm => by
    simp only [List.nil_append, market_scan, if_pos hm]
  | p :: pre, m, suf, best, bm, h, hm => by
    have hp : pyLower mapped ≠ pyLower p := h p (List.mem_cons_self p pre)
    have hpre : ∀ m' ∈ pre, pyLower mapped ≠ pyLower m' :=
      fun m' hm' => h m' (List.mem_cons_of_mem p hm')
    simp only [List.cons_append, market_scan, if_neg hp]
    by_cases hgt : PySeqMatcher.ratio (pyLower mapped) (pyLower p) > best
    · rw [if_pos hgt]
      exact market_scan_exact mapped pre m suf _ _ hpre hm
    · rw [if_neg hgt]
      exact market_scan_exact mapped pre m suf _ _ hpre hm

/-- Claim C3 (amended): for a nonempty market list, an exact case-insensitive
match of the mapped market name returns availability with full confidence 1.0
(the mapping confidence is not factored in); otherwise the market is available
exactly when the best similarity ratio reaches 0.8 and the returned confidence
is the product of that best ratio and the mapping confidence. -/
theorem check_market_confidence (sel : Selection) (bk : String) (markets : List String)
    (mapped : String) (mconf : ℚ)
    (hmap : map_market_uncached sel.market "bet9ja" bk = .ok (mapped, mconf))
    (hne : markets ≠ []) :
    ((∀ m ∈ markets, pyLower mapped ≠ pyLower m) →
      ∃ fm, check_market_availability sel bk markets =
        .ok (decide (best_market_ratio mapped markets ≥ 0.8), fm,
          best_market_ratio mapped markets * mconf))
    ∧ (∀ pre m suf, markets = pre ++ m :: suf →
        (∀ m' ∈ pre, pyLower mapped ≠ pyLower m') → pyLower mapped = pyLower m →
        check_market_availability sel bk markets = .ok (true, m, 1)) := by
  constructor
  · intro hno
    obtain ⟨bm2, hscan⟩ := market_scan_no_exact mapped markets 0 none hno
    refine ⟨if best_market_ratio mapped markets ≥ 0.8 then bm2.getD mapped else mapped, ?_⟩
    simp only [check_market_availability, if_neg hne, hmap, exceptBindOk, hscan,
      best_market_ratio, exceptPureEq]
    by_cases hav : markets.foldl
        (fun b m => max b (PySeqMatcher.ratio (pyLower mapped) (pyLower m))) 0 ≥ 0.8 <;>
      simp [hav]
  · intro pre m suf hsplit hpre hm
    subst hsplit
    simp only [check_market_availability, if_neg hne, hmap, exceptBindOk,
      market_scan_exact mapped pre m suf 0 none hpre hm, exceptPureEq]

/-- A selection whose market passes through the mapping dictionaries
unchanged. -/
def fooSelection : Selection :=
  { game_id := "g3", home_team := "Arsenal", away_team := "Chelsea",
    market := "foobar", odds := 2, event_date := 1, league := "Premier League",
    original_text := "orig" }

/-- Counterexample to claim C3 as stated: on an exact case-insensitive match
the returned confidence is 1.0, which differs from the product of the market
similarity (here 1.0) and the mapping confidence (here 0.6). -/
theorem check_market_confidence_counterexample :
    check_market_availability fooSelection "sportybet" ["foobar"] = .ok (true, "foobar", 1)
    ∧ map_market_uncached fooSelection.market "bet9ja" "sportybet" = .ok ("foobar", 0.6)
    ∧ best_market_ratio "foobar" ["foobar"] * (0.6 : ℚ) ≠ 1 :=
  ⟨by decide, by decide, by decide⟩

/-- Witness for `check_market_confidence` at concrete inputs (no exact match:
the ratio of "match result" against "1x2" is 0, so the market is unavailable
with confidence 0 × mapping confidence). -/
theorem check_market_confidence_witness :
    ∃ fm, check_market_availability exSelection "sportybet" ["1X2"] =
      .ok (decide (best_market_ratio "Match Result" ["1X2"] ≥ 0.8), fm,
        best_market_ratio "Match Result" ["1X2"] * (4/5)) :=
  (check_market_confidence exSelection "sportybet" ["1X2"] "Match Result" (4/5)
    (by decide) (by decide)).1 (by decide)

/-! ## Claim C4 — the market-mapping cache -/

/-- A list lookup misses when no entry carries the key. -/
theorem lookup_none_of_forall {β : Type} (k : String) :
    ∀ (l : List (String × β)), (∀ e ∈ l, e.1 ≠ k) → List.lookup k l = none
  | [], _ => rfl
  | (a, b) :: es, h => by
    have ha : a ≠ k := h (a, b) (List.mem_cons_self _ _)
    have : (k == a) = false := by
      simp only [beq_eq_false_iff_ne, ne_eq]
      exact fun hk => ha hk.symm
    simp only [List.lookup, this]
    exact lookup_none_of_forall k es (fun e he => h e (List.mem_cons_of_mem _ he))

/-- Splitting a list around an underscore separator is unambiguous when the
prefixes do not contain underscores. -/
theorem append_underscore_inj : ∀ (a b x y : List Char), '_' ∉ a → '_' ∉ b →
    a ++ '_' :: x = b ++ '_' :: y → a = b ∧ x = y
  | [], [], x, y, _, _, h => by
    refine ⟨rfl, ?_⟩
    simpa using h
  | [], c :: bs, x, y, _, hb, h => by
    rw [List.nil_append, List.cons_append] at h
    injection h with h1 h2
    exact absurd (by rw [h1]; exact List.mem_cons_self c bs) hb
  | c :: as, [], x, y, ha, _, h => by
    rw [List.nil_append, List.cons_append] at h
    injection h with h1 h2
    exact absurd (by rw [← h1]; exact List.mem_cons_self c as) ha
  | c :: as, d :: bs, x, y, ha, hb, h => by
    rw [List.cons_append, List.cons_append] at h
    injection h with h1 h2
    have ih := append_underscore_inj as bs x y
      (fun hm => ha (List.mem_cons_of_mem _ hm))
      (fun hm => hb (List.mem_cons_of_mem _ hm)) h2
    exact ⟨by rw [h1, ih.1], ih.2⟩

/-- Claim C4 (amended): a call whose cache key differs from every cached key
returns exactly the uncached computation and extends the cache with its own
entry, so calls with different keys never affect each other; and for
bookmakers whose identifiers contain no underscore, two triples share a cache
key exactly when they agree on both bookmakers and on the lowercased market
(triples differing only in market case do share an entry). -/
theorem map_market_cache_transparent :
    (∀ (cache : MappingCache) (m s t : String),
      (∀ e ∈ cache, e.1 ≠ mappingCacheKey s t m) →
      map_market_across_bookmakers cache m s t =
        (map_market_uncached m s t).map
          (fun r => (r, (mappingCacheKey s t m, r) :: cache)))
    ∧ (∀ s t m s' t' m' : String, '_' ∉ s.data → '_' ∉ t.data →
        '_' ∉ s'.data → '_' ∉ t'.data →
        (mappingCacheKey s t m = mappingCacheKey s' t' m' ↔
          (s = s' ∧ t = t' ∧ pyLower m = pyLower m'))) := by
  constructor
  · intro cache m s t h
    have hnone := lookup_none_of_forall (mappingCacheKey s t m) cache h
    simp only [map_market_across_bookmakers, hnone]
    cases hmu : map_market_uncached m s t with
    | ok r => rfl
    | error e => rfl
  · intro s t m s' t' m' hs ht hs' ht'
    constructor
    · intro h
      have hdata : s.data ++ '_' :: (t.data ++ '_' :: (pyLower m).data) =
          s'.data ++ '_' :: (t'.data ++ '_' :: (pyLower m').data) := by
        have := congrArg String.data h
        simpa [mappingCacheKey, String.data_append] using this
      obtain ⟨h1, h2⟩ := append_underscore_inj _ _ _ _ hs hs' hdata
      obtain ⟨h3, h4⟩ := append_underscore_inj _ _ _ _ ht ht' h2
      exact ⟨String.ext h1, String.ext h3, String.ext h4⟩
    · rintro ⟨rfl, rfl, hm⟩
      simp only [mappingCacheKey, hm]

/-- Counterexample to claim C4 as stated: the triples
(`bet9ja`, `sportybet`, `"XYZA"`) and (`bet9ja`, `sportybet`, `"xyza"`) are
distinct but share a cache entry, so after the first call the second returns
the cached pair `("XYZA", 0.6)` instead of its own uncached result
`("xyza", 0.6)`. -/
theorem map_market_cache_counterexample :
    map_market_across_bookmakers [] "XYZA" "bet9ja" "sportybet" =
      .ok (("XYZA", 0.6),
        [(mappingCacheKey "bet9ja" "sportybet" "XYZA", ("XYZA", 0.6))])
    ∧ map_market_across_bookmakers
        [(mappingCacheKey "bet9ja" "sportybet" "XYZA", ("XYZA", 0.6))]
        "xyza" "bet9ja" "sportybet" =
      .ok (("XYZA", 0.6),
        [(mappingCacheKey "bet9ja" "sportybet" "XYZA", ("XYZA", 0.6))])
    ∧ map_market_uncached "xyza" "bet9ja" "sportybet" = .ok ("xyza", 0.6)
    ∧ ("XYZA" : String) ≠ "xyza" :=
  ⟨by decide, by decide, by decide, by decide⟩

/-- Witness for `map_market_cache_transparent` at concrete inputs. -/
theorem map_market_cache_transparent_witness :
    map_market_across_bookmakers [] "XYZA" "bet9ja" "sportybet" =
      (map_market_uncached "XYZA" "bet9ja" "sportybet").map
        (fun r => (r, (mappingCacheKey "bet9ja" "sportybet" "XYZA", r) :: [])) ∧
    (mappingCacheKey "bet9ja" "sportybet" "XYZA" =
        mappingCacheKey "bet9ja" "sportybet" "xyza" ↔
      (("bet9ja" : String) = "bet9ja" ∧ ("sportybet" : String) = "sportybet" ∧
        pyLower "XYZA" = pyLower "xyza")) := by
  constructor
  · exact map_market_cache_transparent.1 [] "XYZA" "bet9ja" "sportybet"
      (fun e he => absurd he (List.not_mem_nil e))
  · exact map_market_cache_transparent.2 "bet9ja" "sportybet" "XYZA"
      "bet9ja" "sportybet" "xyza" (by decide) (by decide) (by decide) (by decide)

/-! ## Claim C6 — fuzzy team matching orientation -/

/-- Identical team names have similarity 1 (exact-match branch). -/
theorem calculate_team_similarity_self (team : String) (h : team ≠ "") :
    calculate_team_similarity team team = 1 := by
  have hne : ¬(team = "" ∨ team = "") := by simp [h]
  simp only [calculate_team_similarity, if_neg hne, if_pos rfl]
  norm_num

/-- Team similarity never exceeds 1 (the blend is clamped). -/
theorem calculate_team_similarity_le_one (a b : String) :
    calculate_team_similarity a b ≤ 1 := by
  simp only [calculate_team_similarity]
  split
  · norm_num
  split
  · norm_num
  calc min _ (1.0 : ℚ) ≤ (1.0 : ℚ) := min_le_right _ _
    _ ≤ 1 := by norm_num

/-- The `SequenceMatcher` ratio is nonnegative. -/
theorem ratio_nonneg (a b : String) : 0 ≤ PySeqMatcher.ratio a b := by
  simp only [PySeqMatcher.ratio]
  split
  · norm_num
  · positivity

/-- The abbreviation bonus is nonnegative. -/
theorem check_abbreviation_match_nonneg (a b : String) :
    0 ≤ check_abbreviation_match a b := by
  simp only [check_abbreviation_match]
  split
  · norm_num
  split
  · norm_num
  split <;> norm_num

/-- Team similarity is nonnegative. -/
theorem calculate_team_similarity_nonneg (a b : String) :
    0 ≤ calculate_team_similarity a b := by
  simp only [calculate_team_similarity]
  split
  · norm_num
  split
  · norm_num
  refine le_min ?_ (by norm_num)
  refine add_nonneg (add_nonneg (add_nonneg
    (mul_nonneg (ratio_nonneg _ _) (by norm_num))
    (mul_nonneg ?_ (by norm_num)))
    (mul_nonneg ?_ (by norm_num)))
    (mul_nonneg (check_abbreviation_match_nonneg _ _) (by norm_num))
  · split
    · norm_num
    split
    · positivity
    · norm_num
  · split <;> norm_num

/-- Similarity against an empty first name is 0. -/
theorem calculate_team_similarity_empty_left (b : String) :
    calculate_team_similarity "" b = 0 := by
  norm_num [calculate_team_similarity]

/-- Similarity against an empty second name is 0. -/
theorem calculate_team_similarity_empty_right (a : String) :
    calculate_team_similarity a "" = 0 := by
  norm_num [calculate_team_similarity]

/-- Claim C6 (amended): with the same source and target bookmaker and both
normalized names nonempty, matching a pair against itself in identical
orientation yields confidence 1 with `swapped = false`; matching against the
fully swapped pair also yields confidence 1 (the same as the unswapped call),
with `swapped = true` exactly when the cross-orientation score is below 1
(names that agree up to normalization and case tie both orientations at 1 and
report `swapped = false`). -/
theorem fuzzy_orientation (bk h a : String) (cfg : BookmakerConfig)
    (hbk : get_bookmaker_adapter bk = some cfg)
    (hh : normalize_game_name cfg h ≠ "")
    (ha : normalize_game_name cfg a ≠ "") :
    fuzzy_match_team_names h a h a bk bk = .ok (1, false)
    ∧ ∃ sw, fuzzy_match_team_names h a a h bk bk = .ok (1, sw) ∧
        (sw = true ↔
          (calculate_team_similarity (normalize_game_name cfg h) (normalize_game_name cfg a) +
            calculate_team_similarity (normalize_game_name cfg a) (normalize_game_name cfg h)) / 2
            < 1) := by
  have hadapter : getAdapterE bk = .ok cfg := by
    simp [getAdapterE, hbk]
  have hsh := calculate_team_similarity_self (normalize_game_name cfg h) hh
  have hsa := calculate_team_similarity_self (normalize_game_name cfg a) ha
  set nh := normalize_game_name cfg h with hnh
  set na := normalize_game_name cfg a with hna
  set cross := (calculate_team_similarity nh na + calculate_team_similarity na nh) / 2
    with hcross
  have hcross_le : cross ≤ 1 := by
    rw [hcross]
    have h1 := calculate_team_similarity_le_one nh na
    have h2 := calculate_team_similarity_le_one na nh
    linarith
  constructor
  · simp only [fuzzy_match_team_names, hadapter, exceptBindOk, ← hnh, ← hna, hsh, hsa]
    rw [if_pos (by linarith : ((1 : ℚ) + 1) / 2 ≥ cross)]
    norm_num
    exact exceptPureEq _
  · simp only [fuzzy_match_team_names, hadapter, exceptBindOk, ← hnh, ← hna, hsh, hsa]
    by_cases hge : cross ≥ ((1 : ℚ) + 1) / 2
    · refine ⟨false, ?_, ?_⟩
      · rw [if_pos hge, exceptPureEq]
        have : cross = 1 := le_antisymm hcross_le (by linarith)
        rw [hcross] at this
        rw [this]
      · simp only [Bool.false_eq_true, false_iff, not_lt, ← hcross]
        linarith
    · refine ⟨true, ?_, ?_⟩
      · rw [if_neg hge, exceptPureEq]
        norm_num
      · simp only [true_iff, ← hcross]
        push_neg at hge
        linarith

/-- Counterexample to claim C6 as stated: the nonempty name "FC" normalizes
to the empty string under the adapters' rules, so the identical pair
("FC", "Arsenal") matches itself with confidence ½ rather than 1; and the
fully swapped pair ("A", "a") ties both orientations, reporting
`swapped = false` instead of `swapped = true`. -/
theorem fuzzy_orientation_counterexample :
    fuzzy_match_team_names "FC" "Arsenal" "FC" "Arsenal" "bet9ja" "bet9ja" ≠ .ok (1, false)
    ∧ fuzzy_match_team_names "A" "a" "a" "A" "bet9ja" "bet9ja" = .ok (1, false) :=
  ⟨by decide, by decide⟩

/-- Witness for `fuzzy_orientation` at concrete inputs. -/
theorem fuzzy_orientation_witness :
    fuzzy_match_team_names "Arsenal" "Chelsea" "Arsenal" "Chelsea" "bet9ja" "bet9ja" =
      .ok (1, false)
    ∧ ∃ sw, fuzzy_match_team_names "Arsenal" "Chelsea" "Chelsea" "Arsenal" "bet9ja" "bet9ja" =
        .ok (1, sw) ∧
        (sw = true ↔
          (calculate_team_similarity (normalize_game_name bet9jaConfig "Arsenal")
              (normalize_game_name bet9jaConfig "Chelsea") +
            calculate_team_similarity (normalize_game_name bet9jaConfig "Chelsea")
              (normalize_game_name bet9jaConfig "Arsenal")) / 2 < 1) :=
  fuzzy_orientation "bet9ja" "Arsenal" "Chelsea" bet9jaConfig
    (by decide) (by decide) (by decide)

/-! ## Claim C2 — best-game selection -/

/-- The team-similarity score of one candidate game for a selection (the
confidence returned by `fuzzy_match_team_names`, 0 if the call raises). -/
def game_team_score (sel : Selection) (bk : String) (g : CandidateGame) : ℚ :=
  match fuzzy_match_team_names sel.home_team sel.away_team g.home_team g.away_team
      "bet9ja" bk with
  | .ok r => r.1
  | .error _ => 0

/-- The highest team-similarity score over a candidate list. -/
def best_game_score (sel : Selection) (bk : String) (games : List CandidateGame) : ℚ :=
  games.foldl (fun b g => max b (game_team_score sel bk g)) 0

/-- For a valid target bookmaker the fuzzy match never raises. -/
theorem fuzzy_valid_ok (sel : Selection) (bk : String) (g : CandidateGame)
    (cfg : BookmakerConfig) (hbk : get_bookmaker_adapter bk = some cfg) :
    ∃ r, fuzzy_match_team_names sel.home_team sel.away_team g.home_team g.away_team
      "bet9ja" bk = .ok r := by
  have hb : getAdapterE "bet9ja" = .ok bet9jaConfig := by decide
  have ht : getAdapterE bk = .ok cfg := by simp [getAdapterE, hbk]
  simp only [fuzzy_match_team_names, hb, ht, exceptBindOk]
  split <;> exact ⟨_, rfl⟩

/-- The candidate score reads off the successful fuzzy-match result. -/
theorem game_team_score_eq {sel : Selection} {bk : String} {g : CandidateGame}
    {r : ℚ × Bool}
    (hr : fuzzy_match_team_names sel.home_team sel.away_team g.home_team g.away_team
      "bet9ja" bk = .ok r) :
    game_team_score sel bk g = r.1 := by
  simp [game_team_score, hr]

/-- The confidence returned by a successful fuzzy match is nonnegative. -/
theorem fuzzy_fst_nonneg {sh sa th ta sbk tbk : String} {r : ℚ × Bool}
    (hr : fuzzy_match_team_names sh sa th ta sbk tbk = .ok r) : 0 ≤ r.1 := by
  cases hs : getAdapterE sbk with
  | error e => rw [fuzzy_match_team_names, hs] at hr; exact absurd hr (by simp [exceptBindErr])
  | ok scfg =>
    cases ht : getAdapterE tbk with
    | error e => rw [fuzzy_match_team_names, hs, ht] at hr
                 exact absurd hr (by simp [exceptBindOk, exceptBindErr])
    | ok tcfg =>
      rw [fuzzy_match_team_names, hs, ht] at hr
      simp only [exceptBindOk] at hr
      have h1 := calculate_team_similarity_nonneg
        (normalize_game_name scfg sh) (normalize_game_name tcfg th)
      have h2 := calculate_team_similarity_nonneg
        (normalize_game_name scfg sa) (normalize_game_name tcfg ta)
      have h3 := calculate_team_similarity_nonneg
        (normalize_game_name scfg sh) (normalize_game_name tcfg ta)
      have h4 := calculate_team_similarity_nonneg
        (normalize_game_name scfg sa) (normalize_game_name tcfg th)
      split at hr <;> (cases hr; simp only; linarith)

/-- Candidate scores are nonnegative. -/
theorem game_team_score_nonneg (sel : Selection) (bk : String) (g : CandidateGame) :
    0 ≤ game_team_score sel bk g := by
  unfold game_team_score
  split
  · exact fuzzy_fst_nonneg (by assumption)
  · exact le_refl 0

/-- The confidence returned by a successful fuzzy match is at most 1. -/
theorem fuzzy_fst_le_one {sh sa th ta sbk tbk : String} {r : ℚ × Bool}
    (hr : fuzzy_match_team_names sh sa th ta sbk tbk = .ok r) : r.1 ≤ 1 := by
  cases hs : getAdapterE sbk with
  | error e => rw [fuzzy_match_team_names, hs] at hr; exact absurd hr (by simp [exceptBindErr])
  | ok scfg =>
    cases ht : getAdapterE tbk with
    | error e => rw [fuzzy_match_team_names, hs, ht] at hr
                 exact absurd hr (by simp [exceptBindOk, exceptBindErr])
    | ok tcfg =>
      rw [fuzzy_match_team_names, hs, ht] at hr
      simp only [exceptBindOk] at hr
      have h1 := calculate_team_similarity_le_one
        (normalize_game_name scfg sh) (normalize_game_name tcfg th)
      have h2 := calculate_team_similarity_le_one
        (normalize_game_name scfg sa) (normalize_game_name tcfg ta)
      have h3 := calculate_team_similarity_le_one
        (normalize_game_name scfg sh) (normalize_game_name tcfg ta)
      have h4 := calculate_team_similarity_le_one
        (normalize_game_name scfg sa) (normalize_game_name tcfg th)
      split at hr <;> (cases hr; simp only; linarith)

/-- The four supported adapter configurations. -/
theorem adapter_cases (bk : String) (cfg : BookmakerConfig)
    (hbk : get_bookmaker_adapter bk = some cfg) :
    cfg = bet9jaConfig ∨ cfg = sportybetConfig ∨ cfg = betwayConfig ∨ cfg = bet365Config := by
  simp only [get_bookmaker_adapter] at hbk
  split at hbk
  · exact Or.inl (Option.some.inj hbk).symm
  split at hbk
  · exact Or.inr (Or.inl (Option.some.inj hbk).symm)
  split at hbk
  · exact Or.inr (Or.inr (Or.inl (Option.some.inj hbk).symm))
  split at hbk
  · exact Or.inr (Or.inr (Or.inr (Option.some.inj hbk).symm))
  · exact absurd hbk (by simp)

/-- Every supported adapter normalizes the empty name to the empty name. -/
theorem normalize_empty (bk : String) (cfg : BookmakerConfig)
    (hbk : get_bookmaker_adapter bk = some cfg) :
    normalize_game_name cfg "" = "" := by
  rcases adapter_cases bk cfg hbk with h | h | h | h <;> (subst h; decide)

/-- A candidate with a missing team name scores at most ½: one orientation
term of each average vanishes against the empty normalized name. -/
theorem game_team_score_skipped (sel : Selection) (bk : String) (g : CandidateGame)
    (cfg : BookmakerConfig) (hbk : get_bookmaker_adapter bk = some cfg)
    (hskip : g.home_team = "" ∨ g.away_team = "") :
    game_team_score sel bk g ≤ 1/2 := by
  have hb : getAdapterE "bet9ja" = .ok bet9jaConfig := by decide
  have ht : getAdapterE bk = .ok cfg := by simp [getAdapterE, hbk]
  have hempty := normalize_empty bk cfg hbk
  obtain ⟨r, hr⟩ := fuzzy_valid_ok sel bk g cfg hbk
  rw [game_team_score_eq hr]
  rw [fuzzy_match_team_names] at hr
  simp only [hb, ht, exceptBindOk] at hr
  have e1 := calculate_team_similarity_empty_right
    (normalize_game_name bet9jaConfig sel.home_team)
  have e2 := calculate_team_similarity_empty_right
    (normalize_game_name bet9jaConfig sel.away_team)
  rcases hskip with hsk | hsk <;> rw [hsk, hempty] at hr
  · have l1 := calculate_team_similarity_le_one
      (normalize_game_name bet9jaConfig sel.away_team) (normalize_game_name cfg g.away_team)
    have l2 := calculate_team_similarity_le_one
      (normalize_game_name bet9jaConfig sel.home_team) (normalize_game_name cfg g.away_team)
    split at hr <;> (cases hr; simp only [e1, e2]) <;> linarith
  · have l1 := calculate_team_similarity_le_one
      (normalize_game_name bet9jaConfig sel.home_team) (normalize_game_name cfg g.home_team)
    have l2 := calculate_team_similarity_le_one
      (normalize_game_name bet9jaConfig sel.away_team) (normalize_game_name cfg g.home_team)
    split at hr <;> (cases hr; simp only [e1, e2]) <;> linarith

/-- Pure description of one iteration of the candidate loop (for a valid
target bookmaker). -/
def gameLoopStepP (sel : Selection) (bk : String) (st : GameLoopState)
    (g : CandidateGame) : GameLoopState :=
  if g.home_team = "" ∨ g.away_team = "" then st
  else if game_team_score sel bk g > st.2.1 then (some g, game_team_score sel bk g, g.markets)
  else st

/-- For a valid target bookmaker the monadic loop body equals its pure
description. -/
theorem gameLoopStep_eq_pure (sel : Selection) (bk : String) (cfg : BookmakerConfig)
    (hbk : get_bookmaker_adapter bk = some cfg) (st : GameLoopState) (g : CandidateGame) :
    gameLoopStep sel bk st g = .ok (gameLoopStepP sel bk st g) := by
  obtain ⟨r, hr⟩ := fuzzy_valid_ok sel bk g cfg hbk
  have hs := game_team_score_eq hr
  simp only [gameLoopStep, gameLoopStepP, hr, exceptBindOk, hs]
  split
  · rfl
  · split <;> rfl

/-- For a valid target bookmaker the whole candidate loop equals the pure
fold. -/
theorem gameLoop_fold (sel : Selection) (bk : String) (cfg : BookmakerConfig)
    (hbk : get_bookmaker_adapter bk = some cfg) :
    ∀ (games : List CandidateGame) (st : GameLoopState),
    List.foldlM (gameLoopStep sel bk) st games = .ok (games.foldl (gameLoopStepP sel bk) st)
  | [], st => rfl
  | g :: gs, st => by
    rw [List.foldlM_cons, gameLoopStep_eq_pure sel bk cfg hbk st g, exceptBindOk,
      List.foldl_cons]
    exact gameLoop_fold sel bk cfg hbk gs _

/-- A strict-improvement update computes the maximum. -/
theorem if_gt_eq_max (b s : ℚ) : (if s > b then s else b) = max b s := by
  split
  · exact (max_eq_right (le_of_lt (by assumption))).symm
  · exact (max_eq_left (not_lt.mp (by assumption))).symm

/-- The confidence component of the pure fold is the `max`-fold of the scores
of candidates with both team names present. -/
theorem gameLoop_fold_conf (sel : Selection) (bk : String) :
    ∀ (games : List CandidateGame) (st : GameLoopState),
    (games.foldl (gameLoopStepP sel bk) st).2.1 =
      games.foldl
        (fun b g => if g.home_team = "" ∨ g.away_team = "" then b
          else max b (game_team_score sel bk g)) st.2.1
  | [], st => rfl
  | g :: gs, st => by
    rw [List.foldl_cons, List.foldl_cons, gameLoop_fold_conf sel bk gs]
    congr 1
    simp only [gameLoopStepP]
    split
    · rfl
    · rw [← if_gt_eq_max]
      split <;> rfl

/-- Invariant of the pure fold: the best candidate, when present, is a member
with both names present whose score is the running confidence and whose
markets are recorded; when absent the confidence is 0. -/
def GoodState (sel : Selection) (bk : String) (P : CandidateGame → Prop)
    (st : GameLoopState) : Prop :=
  (st.1 = none → st.2.1 = 0) ∧
  ∀ g, st.1 = some g → P g ∧ g.home_team ≠ "" ∧ g.away_team ≠ "" ∧
    game_team_score sel bk g = st.2.1 ∧ st.2.2 = g.markets

/-- The pure fold preserves the invariant. -/
theorem goodState_fold (sel : Selection) (bk : String) (P : CandidateGame → Prop) :
    ∀ (games : List CandidateGame) (st : GameLoopState), (∀ g ∈ games, P g) →
    GoodState sel bk P st → GoodState sel bk P (games.foldl (gameLoopStepP sel bk) st)
  | [], st, _, hst => hst
  | g :: gs, st, hmem, hst => by
    rw [List.foldl_cons]
    refine goodState_fold sel bk P gs _ (fun g' hg' => hmem g' (List.mem_cons_of_mem g hg')) ?_
    simp only [gameLoopStepP]
    split
    · exact hst
    split
    · rename_i hnames hgt
      push_neg at hnames
      refine And.intro (fun h => nomatch h) ?_
      intro g' hg'
      cases hg'
      exact ⟨hmem g (List.mem_cons_self g gs), hnames.1, hnames.2, rfl, rfl⟩
    · exact hst

/-- The skipped-candidate fold is below the unrestricted fold. -/
theorem fold_skip_le_all (sel : Selection) (bk : String) :
    ∀ (games : List CandidateGame) (b c : ℚ), b ≤ c →
    games.foldl
      (fun b g => if g.home_team = "" ∨ g.away_team = "" then b
        else max b (game_team_score sel bk g)) b ≤
      games.foldl (fun b g => max b (game_team_score sel bk g)) c
  | [], b, c, h => h
  | g :: gs, b, c, h => by
    rw [List.foldl_cons, List.foldl_cons]
    refine fold_skip_le_all sel bk gs _ _ ?_
    split
    · exact le_trans h (le_max_left _ _)
    · exact max_le_max h (le_refl _)

/-- The unrestricted fold is bounded by the skipped fold or ½ (for a valid
bookmaker every skipped candidate scores at most ½). -/
theorem fold_all_le_skip (sel : Selection) (bk : String) (cfg : BookmakerConfig)
    (hbk : get_bookmaker_adapter bk = some cfg) :
    ∀ (games : List CandidateGame) (b c : ℚ), b ≤ max c (1/2) →
    games.foldl (fun b g => max b (game_team_score sel bk g)) b ≤
      max (games.foldl
        (fun b g => if g.home_team = "" ∨ g.away_team = "" then b
          else max b (game_team_score sel bk g)) c) (1/2)
  | [], b, c, h => h
  | g :: gs, b, c, h => by
    rw [List.foldl_cons, List.foldl_cons]
    refine fold_all_le_skip sel bk cfg hbk gs _ _ ?_
    split
    · rename_i hskip
      have hsc := game_team_score_skipped sel bk g cfg hbk hskip
      exact max_le h (hsc.trans (le_max_right c _))
    · refine max_le ?_ ?_
      · exact le_trans h (max_le_max (le_max_left c _) (le_refl _))
      · exact le_trans (le_max_right c _) (le_max_left _ _)

/-- On an unavailable game, `match_selection` fails with exactly the
"game not found" warning and no matched fields. -/
theorem match_selection_unavailable (odds_tol : ℚ) (tol : Option ℚ) (sel : Selection)
    (bk : String) (games : List CandidateGame) (ga : GameAvailability)
    (hga : check_game_availability sel bk games = .ok ga) (hav : ga.available = false) :
    match_selection odds_tol sel bk games tol = .ok
      { success := false, confidence := ga.confidence,
        warnings := [.gameNotFound sel.home_team sel.away_team] } := by
  simp only [match_selection, hga, exceptBindOk, hav]
  simp only [if_pos, eq_self_iff_true, if_true]
  exact exceptPureEq _

/-- Claim C2: `check_game_availability` selects a candidate of maximal
team-similarity score; the game is available exactly when the best score over
the candidate list reaches 0.7; otherwise — including for the empty candidate
list — `match_selection` fails with no matched game/market/odds fields and a
nonempty warning naming the selection's teams. -/
theorem check_game_best (odds_tol : ℚ) (tol : Option ℚ) (sel : Selection) (bk : String)
    (games : List CandidateGame) (cfg : BookmakerConfig)
    (hbk : get_bookmaker_adapter bk = some cfg) :
    ∃ ga, check_game_availability sel bk games = .ok ga
      ∧ (ga.available = true ↔ 0.7 ≤ best_game_score sel bk games)
      ∧ (ga.available = true →
          ga.confidence = best_game_score sel bk games ∧
          ∃ g ∈ games, game_team_score sel bk g = best_game_score sel bk games ∧
            ga.game_name = some (g.home_team ++ " vs " ++ g.away_team) ∧
            ga.home_team = some g.home_team ∧ ga.away_team = some g.away_team)
      ∧ (ga.available = false →
          match_selection odds_tol sel bk games tol = .ok
            { success := false, confidence := ga.confidence,
              warnings := [.gameNotFound sel.home_team sel.away_team] }) := by
  by_cases hne : games = []
  · subst hne
    have hcheck : check_game_availability sel bk [] =
        .ok { available := false, confidence := 0 } := rfl
    refine ⟨{ available := false, confidence := 0 }, hcheck, ?_, ?_, ?_⟩
    · simp only [best_game_score, List.foldl_nil]
      norm_num
    · intro h
      exact absurd h (by norm_num)
    · intro _
      exact match_selection_unavailable odds_tol tol sel bk [] _ hcheck rfl
  · have hAd : getAdapterE bk = .ok cfg := by simp [getAdapterE, hbk]
    have hfold := gameLoop_fold sel bk cfg hbk games ((none, 0, []) : GameLoopState)
    set st := games.foldl (gameLoopStepP sel bk) ((none, 0, []) : GameLoopState) with hst
    have hconf : st.2.1 = games.foldl
        (fun b g => if g.home_team = "" ∨ g.away_team = "" then b
          else max b (game_team_score sel bk g)) 0 := by
      rw [hst, gameLoop_fold_conf sel bk games]
    have hgood : GoodState sel bk (fun g => g ∈ games) st := by
      rw [hst]
      exact goodState_fold sel bk _ games _ (fun g h => h)
        ⟨fun _ => rfl, fun g h => nomatch h⟩
    have hle1 : st.2.1 ≤ best_game_score sel bk games := by
      rw [hconf, best_game_score]
      exact fold_skip_le_all sel bk games 0 0 le_rfl
    have hle2 : best_game_score sel bk games ≤ max st.2.1 (1/2) := by
      rw [hconf, best_game_score]
      exact fold_all_le_skip sel bk cfg hbk games 0 0 (le_max_left 0 _)
    have hiff : ((0.7 : ℚ) ≤ st.2.1 ↔ 0.7 ≤ best_game_score sel bk games) := by
      constructor
      · exact fun h => le_trans h hle1
      · intro h
        by_contra hcon
        have : max st.2.1 (1/2) < 0.7 := max_lt (lt_of_not_le hcon) (by norm_num)
        linarith [le_trans h hle2]
    rcases hbm : st.1 with _ | g
    · have h0 : st.2.1 = 0 := hgood.1 hbm
      have hcheck : check_game_availability sel bk games =
          .ok { available := false, confidence := st.2.1 } := by
        simp only [check_game_availability, if_neg hne, hAd, exceptBindOk, hfold, ← hst,
          hbm, exceptPureEq]
      refine ⟨_, hcheck, ?_, ?_, ?_⟩
      · simp only [Bool.false_eq_true, false_iff]
        intro h
        rw [← hiff] at h
        rw [h0] at h
        norm_num at h
      · intro h
        exact absurd h (by norm_num)
      · intro _
        exact match_selection_unavailable odds_tol tol sel bk games _ hcheck rfl
    · obtain ⟨hgmem, hhn, han, hscore, hmks⟩ := hgood.2 g hbm
      by_cases hav : (0.7 : ℚ) ≤ st.2.1
      · have hdec : decide (st.2.1 ≥ 0.7) = true := decide_eq_true hav
        have hbu : st.2.1 = best_game_score sel bk games :=
          le_antisymm hle1 (hle2.trans (max_le le_rfl (le_trans (by norm_num) hav)))
        have hcheck : check_game_availability sel bk games =
            .ok { available := true,
                  game_name := some (g.home_team ++ " vs " ++ g.away_team),
                  home_team := some g.home_team, away_team := some g.away_team,
                  markets := st.2.2, confidence := st.2.1 } := by
          simp only [check_game_availability, if_neg hne, hAd, exceptBindOk, hfold, ← hst,
            hbm, hdec, if_pos rfl, exceptPureEq, if_true]
        refine ⟨_, hcheck, ?_, ?_, ?_⟩
        · simp only [true_iff]
          rw [← hbu]
          exact hav
        · intro _
          exact ⟨hbu, g, hgmem, by rw [hscore, hbu], rfl, rfl, rfl⟩
        · intro h
          exact absurd h (by simp)
      · have hdec : decide (st.2.1 ≥ 0.7) = false := decide_eq_false hav
        have hcheck : check_game_availability sel bk games =
            .ok { available := false, confidence := st.2.1 } := by
          simp only [check_game_availability, if_neg hne, hAd, exceptBindOk, hfold, ← hst,
            hbm, hdec, exceptPureEq, if_false, Bool.false_eq_true]
        refine ⟨_, hcheck, ?_, ?_, ?_⟩
        · simp only [Bool.false_eq_true, false_iff]
          rw [← hiff]
          exact hav
        · intro h
          exact absurd h (by norm_num)
        · intro _
          exact match_selection_unavailable odds_tol tol sel bk games _ hcheck rfl

/-- Witness for `check_game_best` at concrete inputs. -/
theorem check_game_best_witness :
    ∃ ga, check_game_availability exSelection "sportybet" exGames = .ok ga
      ∧ (ga.available = true ↔ 0.7 ≤ best_game_score exSelection "sportybet" exGames)
      ∧ (ga.available = true →
          ga.confidence = best_game_score exSelection "sportybet" exGames ∧
          ∃ g ∈ exGames,
            game_team_score exSelection "sportybet" g =
              best_game_score exSelection "sportybet" exGames ∧
            ga.game_name = some (g.home_team ++ " vs " ++ g.away_team) ∧
            ga.home_team = some g.home_team ∧ ga.away_team = some g.away_team)
      ∧ (ga.available = false →
          match_selection (1/20) exSelection "sportybet" exGames none = .ok
            { success := false, confidence := ga.confidence,
              warnings := [.gameNotFound exSelection.home_team exSelection.away_team] }) :=
  check_game_best (1/20) none exSelection "sportybet" exGames sportybetConfig (by decide)

/-! ## The browser-instance pool (`parallel_browser_manager.py`)

`BrowserInstancePool` holds a dict of instances (insertion-ordered association
list) and a FIFO of idle instance ids.  `datetime.now()` / `time.time()`
values are modelled as natural-number timestamps supplied by the caller; the
LLM client held by the pool plays no role in the pooling logic.  `release`
takes the instance value held by the worker, modelling Python's mutation of
the shared object through the alias by writing the updated instance back at
its id. -/

/-- Embedding of the `BrowserInstance` dataclass (the external agent handle
carries no pooling-relevant state and is omitted). -/
structure BrowserInstance where
  id : String
  in_use : Bool
  created_at : Nat
  last_used : Nat
  usage_count : Nat
  max_usage : Nat := 50
deriving DecidableEq

/-- Errors raised by `BrowserInstancePool.get_instance`: capacity exhaustion,
or the `KeyError` reachable when the idle queue holds an id that is no longer
tracked. -/
inductive PoolError where
  | exhausted
  | staleInstance (id : String)
deriving DecidableEq

/-- Embedding of `BrowserInstancePool` state. -/
structure BrowserInstancePool where
  max_instances : Nat
  instances : List (String × BrowserInstance)
  available_instances : List String
deriving DecidableEq

/-- A fresh pool of the given capacity. -/
def initPool (max_instances : Nat) : BrowserInstancePool :=
  { max_instances := max_instances, instances := [], available_instances := [] }

/-- The id built by `_create_instance`:
`f"browser_{len(self.instances)}_{int(time.time())}"`. -/
def instanceIdOf (count now : Nat) : String :=
  "browser_" ++ toString count ++ "_" ++ toString now

/-- Embedding of `BrowserInstancePool._create_instance`. -/
def create_instance (now : Nat) (pool : BrowserInstancePool) :
    BrowserInstance × BrowserInstancePool :=
  let instance_id := instanceIdOf pool.instances.length now
  let inst : BrowserInstance :=
    { id := instance_id, in_use := true, created_at := now, last_used := now,
      usage_count := 0 }
  (inst, { pool with instances := assocSet pool.instances instance_id inst })

/-- Embedding of `BrowserInstancePool.get_instance`: pop the idle queue if
nonempty, else create under capacity, else raise the capacity error. -/
def get_instance (now : Nat) (pool : BrowserInstancePool) :
    Except PoolError (BrowserInstance × BrowserInstancePool) :=
  match pool.available_instances with
  | instance_id :: rest =>
    match List.lookup instance_id pool.instances with
    | some inst =>
      let inst := { inst with in_use := true, last_used := now }
      .ok (inst,
        { pool with
            instances := assocSet pool.instances instance_id inst
            available_instances := rest })
    | none => .error (.staleInstance instance_id)
  | [] =>
    if pool.instances.length < pool.max_instances then .ok (create_instance now pool)
    else .error .exhausted

/-- Embedding of `BrowserInstancePool.release_instance` (with
`_recycle_instance` inlined: the recycle path removes the instance from
tracking — a missing key is swallowed — and does not enqueue it). -/
def release_instance (inst : BrowserInstance) (pool : BrowserInstancePool) :
    BrowserInstancePool :=
  let inst := { inst with in_use := false, usage_count := inst.usage_count + 1 }
  if inst.usage_count ≥ inst.max_usage then
    { pool with instances := pool.instances.filter (fun e => e.1 ≠ inst.id) }
  else
    { pool with
      instances := pool.instances.map (fun e => if e.1 = inst.id then (e.1, inst) else e),
      available_instances := pool.available_instances ++ [inst.id] }

/-- Iterated acquisition (used to state the capacity scenario of C7). -/
def acquireMany (now : Nat) : Nat → BrowserInstancePool →
    Except PoolError BrowserInstancePool
  | 0, p => .ok p
  | k + 1, p => do
    let r ← get_instance now p
    acquireMany now k r.2

/-! ## Decimal rendering of naturals

`instanceIdOf` embeds `len(instances)` and `int(time.time())` in decimal via
`toString`; the following lemmas show the rendering is injective and
underscore-free, which pins down when two instance ids can collide. -/

/-- Canonical decimal digit list of a natural number (most significant
first). -/
def decDigits (n : Nat) : List Char :=
  if n < 10 then [Nat.digitChar n]
  else decDigits (n / 10) ++ [Nat.digitChar (n % 10)]
termination_by n
decreasing_by
  exact Nat.div_lt_self (by omega) (by omega)

/-- `Nat.toDigitsCore` with sufficient fuel computes the canonical digits. -/
theorem toDigitsCore_eq_decDigits :
    ∀ (fuel n : Nat) (ds : List Char), n < fuel →
    Nat.toDigitsCore 10 fuel n ds = decDigits n ++ ds
  | 0, n, ds, h => absurd h (by omega)
  | fuel + 1, n, ds, h => by
    rw [Nat.toDigitsCore]
    by_cases h10 : n < 10
    · have hz : n / 10 = 0 := Nat.div_eq_of_lt h10
      simp only [hz, if_pos rfl]
      rw [decDigits, if_pos h10, Nat.mod_eq_of_lt h10]
      rfl
    · have hz : ¬ n / 10 = 0 := by
        intro hc
        exact h10 (by omega)
      have hlt : n / 10 < fuel := by
        have h1 : n / 10 < n := Nat.div_lt_self (by omega) (by omega)
        omega
      rw [if_neg hz, toDigitsCore_eq_decDigits fuel (n / 10) _ hlt]
      have hd : decDigits n = decDigits (n / 10) ++ [Nat.digitChar (n % 10)] := by
        conv_lhs => rw [decDigits]
        rw [if_neg h10]
      rw [hd, List.append_assoc]
      rfl

/-- `Nat.repr` produces the canonical decimal digits. -/
theorem repr_eq_decDigits (n : Nat) : (Nat.repr n).data = decDigits n := by
  show (Nat.toDigits 10 n).asString.data = decDigits n
  rw [Nat.toDigits, toDigitsCore_eq_decDigits (n + 1) n [] (by omega), List.append_nil]
  rfl

/-- Digit characters of digits below ten are decimal digits. -/
theorem digitChar_isDigit (d : Nat) (h : d < 10) : (Nat.digitChar d).isDigit = true := by
  interval_cases d <;> decide

/-- `Nat.digitChar` is injective below ten. -/
theorem digitChar_inj (d e : Nat) (hd : d < 10) (he : e < 10)
    (h : Nat.digitChar d = Nat.digitChar e) : d = e := by
  interval_cases d <;> interval_cases e <;> first | rfl | (exfalso; exact absurd h (by decide))

/-- Every character of the canonical digits is a decimal digit. -/
theorem decDigits_isDigit (n : Nat) : ∀ c ∈ decDigits n, c.isDigit = true := by
  induction n using Nat.strong_induction_on with
  | _ n ih =>
    rw [decDigits]
    split
    · intro c hc
      rw [List.mem_singleton] at hc
      subst hc
      exact digitChar_isDigit n (by omega)
    · intro c hc
      rw [List.mem_append] at hc
      rcases hc with hc | hc
      · exact ih (n / 10) (Nat.div_lt_self (by omega) (by omega)) c hc
      · rw [List.mem_singleton] at hc
        subst hc
        exact digitChar_isDigit (n % 10) (Nat.mod_lt n (by omega))

/-- The canonical digits are never empty. -/
theorem decDigits_ne_nil (n : Nat) : decDigits n ≠ [] := by
  rw [decDigits]
  split
  · exact fun h => nomatch h
  · simp

/-- The canonical decimal rendering is injective. -/
theorem decDigits_inj : ∀ (m n : Nat), decDigits m = decDigits n → m = n := by
  have hdef : ∀ j : Nat, decDigits j =
      if j < 10 then [Nat.digitChar j]
      else decDigits (j / 10) ++ [Nat.digitChar (j % 10)] := fun j => by rw [decDigits]
  intro m
  induction m using Nat.strong_induction_on with
  | _ m ih =>
    intro n h
    rw [hdef m, hdef n] at h
    split at h <;> split at h
    · rename_i hm hn
      rw [List.cons.injEq] at h
      exact digitChar_inj m n (by omega) (by omega) h.1
    · rename_i hm hn
      exfalso
      have hlen := congrArg List.length h
      rw [List.length_append, List.length_singleton, List.length_singleton] at hlen
      have := List.length_pos.mpr (decDigits_ne_nil (n / 10))
      omega
    · rename_i hm hn
      exfalso
      have hlen := congrArg List.length h
      rw [List.length_append, List.length_singleton, List.length_singleton] at hlen
      have := List.length_pos.mpr (decDigits_ne_nil (m / 10))
      omega
    · rename_i hm hn
      obtain ⟨h1, h2⟩ := List.append_inj' h (by rfl)
      rw [List.cons.injEq] at h2
      have hd := digitChar_inj (m % 10) (n % 10)
        (Nat.mod_lt m (by omega)) (Nat.mod_lt n (by omega)) h2.1
      have hq := ih (m / 10) (Nat.div_lt_self (by omega) (by omega)) (n / 10) h1
      omega

/-- Decimal renderings contain no underscore. -/
theorem natRepr_no_underscore (n : Nat) : '_' ∉ (Nat.repr n).data := by
  rw [repr_eq_decDigits]
  intro h
  have := decDigits_isDigit n '_' h
  exact absurd this (by decide)

/-- `Nat.repr` is injective. -/
theorem natRepr_inj (m n : Nat) (h : Nat.repr m = Nat.repr n) : m = n :=
  decDigits_inj m n (by rw [← repr_eq_decDigits, ← repr_eq_decDigits, h])

/-- Instance ids determine the instance count and timestamp that formed
them. -/
theorem instanceIdOf_inj (k t q u : Nat) (h : instanceIdOf k t = instanceIdOf q u) :
    k = q ∧ t = u := by
  have hdata : "browser_".data ++ ((Nat.repr k).data ++ '_' :: (Nat.repr t).data) =
      "browser_".data ++ ((Nat.repr q).data ++ '_' :: (Nat.repr u).data) := by
    have := congrArg String.data h
    simpa [instanceIdOf, String.data_append, toString, List.append_assoc] using this
  have hsuffix := List.append_cancel_left hdata
  obtain ⟨h1, h2⟩ := append_underscore_inj _ _ _ _
    (natRepr_no_underscore k) (natRepr_no_underscore q) hsuffix
  exact ⟨natRepr_inj k q (String.ext h1), natRepr_inj t u (String.ext h2)⟩

/-! ## Pool lemmas -/

/-- Entries of `assocSet` are the new binding or old entries. -/
theorem mem_assocSet {α : Type} (m : List (String × α)) (k : String) (v : α) :
    ∀ e ∈ assocSet m k v, e = (k, v) ∨ e ∈ m := by
  intro e he
  unfold assocSet at he
  split at he
  · rw [List.mem_map] at he
    obtain ⟨e0, he0, heq⟩ := he
    split at heq
    · exact Or.inl heq.symm
    · exact Or.inr (heq ▸ he0)
  · rw [List.mem_append, List.mem_singleton] at he
    rcases he with he | he
    · exact Or.inr he
    · exact Or.inl he

/-- Inserting a fresh key appends the binding. -/
theorem assocSet_fresh {α : Type} (m : List (String × α)) (k : String) (v : α)
    (h : ∀ e ∈ m, e.1 ≠ k) : assocSet m k v = m ++ [(k, v)] := by
  unfold assocSet
  rw [if_neg]
  simp only [List.any_eq_true, decide_eq_true_eq, not_exists, not_and]
  exact fun e hmem => h e hmem

/-- Overwriting an existing key keeps the length. -/
theorem assocSet_length_le {α : Type} (m : List (String × α)) (k : String) (v : α) :
    (assocSet m k v).length ≤ m.length + 1 := by
  unfold assocSet
  split
  · rw [List.length_map]
    omega
  · rw [List.length_append, List.length_singleton]

/-- Lookup after updating the value at a key through `map`. -/
theorem lookup_map_update {α : Type} (k : String) (v : α) :
    ∀ (m : List (String × α)),
    List.lookup k (m.map (fun e => if e.1 = k then (e.1, v) else e)) =
      (List.lookup k m).map (fun _ => v)
  | [] => rfl
  | (a, b) :: es => by
    by_cases h : a = k
    · subst h
      simp only [List.map_cons, if_pos rfl, List.lookup_cons, beq_self_eq_true, if_true,
        List.lookup_cons_self, Option.map_some]
      rfl
    · have hbeq : (k == a) = false := by
        simp only [beq_eq_false_iff_ne, ne_eq]
        exact fun hk => h hk.symm
      simp only [List.map_cons, if_neg h, List.lookup_cons, hbeq, cond_false]
      exact lookup_map_update k v es

/-- A successful association-list lookup produces a member. -/
theorem lookup_some_mem {α : Type} (k : String) : ∀ (m : List (String × α)) (v : α),
    List.lookup k m = some v → (k, v) ∈ m
  | [], v, h => nomatch h
  | (a, b) :: es, v, h => by
    simp only [List.lookup] at h
    cases hbeq : (k == a) with
    | true =>
      rw [hbeq] at h
      cases h
      rw [eq_of_beq hbeq]
      exact List.mem_cons_self _ _
    | false =>
      rw [hbeq] at h
      exact List.mem_cons_of_mem _ (lookup_some_mem k es v h)

/-! ## Claim C7 — pool acquisition -/

/-- Candidate pools whose tracked ids were all formed at timestamp `now` with
instance counts below the current length (the shape reached by repeated
acquisition from an empty pool). -/
def FreshIds (now : Nat) (p : BrowserInstancePool) : Prop :=
  ∀ e ∈ p.instances, ∃ i, i < p.instances.length ∧ e.1 = instanceIdOf i now

/-- Repeated acquisition from an idle-free pool with fresh ids creates one
instance per call while capacity allows. -/
theorem acquireMany_spec (now : Nat) : ∀ (k : Nat) (p : BrowserInstancePool),
    p.available_instances = [] → FreshIds now p →
    p.instances.length + k ≤ p.max_instances →
    ∃ q, acquireMany now k p = .ok q ∧ q.available_instances = [] ∧
      q.instances.length = p.instances.length + k ∧
      q.max_instances = p.max_instances ∧ FreshIds now q
  | 0, p, hq, hf, hcap => ⟨p, rfl, hq, by omega, rfl, hf⟩
  | k + 1, p, hq, hf, hcap => by
    have hfreshKey : ∀ e ∈ p.instances, e.1 ≠ instanceIdOf p.instances.length now := by
      intro e he hk
      obtain ⟨i, hi, hei⟩ := hf e he
      rw [hei] at hk
      have := (instanceIdOf_inj i now p.instances.length now hk).1
      omega
    have hset := assocSet_fresh p.instances (instanceIdOf p.instances.length now)
      ({ id := instanceIdOf p.instances.length now, in_use := true, created_at := now,
         last_used := now, usage_count := 0 } : BrowserInstance) hfreshKey
    have hget : get_instance now p = .ok (create_instance now p) := by
      rw [get_instance, hq]
      rw [if_pos (by omega)]
    have hlen : (create_instance now p).2.instances.length = p.instances.length + 1 := by
      simp only [create_instance, hset, List.length_append, List.length_singleton]
    have hfresh2 : FreshIds now (create_instance now p).2 := by
      intro e he
      simp only [create_instance, hset] at he
      rw [List.mem_append, List.mem_singleton] at he
      rcases he with he | he
      · obtain ⟨i, hi, hei⟩ := hf e he
        exact ⟨i, by rw [hlen]; omega, hei⟩
      · exact ⟨p.instances.length, by rw [hlen]; omega, by rw [he]⟩
    obtain ⟨q, hacq, hq2, hlen2, hmax2, hf2⟩ :=
      acquireMany_spec now k (create_instance now p).2
        (by simp only [create_instance]; exact hq) hfresh2 (by rw [hlen]; simp only [create_instance]; omega)
    refine ⟨q, ?_, hq2, ?_, ?_, hf2⟩
    · rw [acquireMany, hget, exceptBindOk]
      exact hacq
    · rw [hlen2, hlen]
      omega
    · rw [hmax2]
      rfl

/-- Claim C7: `get_instance` hands out the idle resource at the head of the
queue when one exists, creates a fresh busy instance (with its last-used time
set to now) when under capacity, and fails with the capacity error otherwise;
consequently `capacity` acquisitions from an empty pool succeed, the next
acquisition fails with the capacity error, and after releasing a held
instance the next acquisition succeeds again. -/
theorem pool_acquire_spec :
    (∀ (now : Nat) (pool : BrowserInstancePool) (id : String) (rest : List String)
        (inst : BrowserInstance),
      pool.available_instances = id :: rest →
      List.lookup id pool.instances = some inst →
      get_instance now pool = .ok ({ inst with in_use := true, last_used := now },
        { pool with
            instances := assocSet pool.instances id { inst with in_use := true, last_used := now }
            available_instances := rest }))
    ∧ (∀ (now : Nat) (pool : BrowserInstancePool), pool.available_instances = [] →
        pool.instances.length < pool.max_instances →
        ∃ p2, get_instance now pool =
          .ok ({ id := instanceIdOf pool.instances.length now, in_use := true,
                 created_at := now, last_used := now, usage_count := 0 }, p2))
    ∧ (∀ (now : Nat) (pool : BrowserInstancePool), pool.available_instances = [] →
        ¬ pool.instances.length < pool.max_instances →
        get_instance now pool = .error .exhausted)
    ∧ (∀ (now n : Nat), ∃ p, acquireMany now n (initPool n) = .ok p ∧
        get_instance now p = .error .exhausted)
    ∧ (∀ (now now2 : Nat) (pool : BrowserInstancePool) (inst inst0 : BrowserInstance),
        pool.available_instances = [] →
        pool.instances.length ≤ pool.max_instances →
        List.lookup inst.id pool.instances = some inst0 →
        ∃ r, get_instance now2 (release_instance inst pool) = .ok r) := by
  refine ⟨?_, ?_, ?_, ?_, ?_⟩
  · intro now pool id rest inst hq hl
    rw [get_instance, hq]
    simp only [hl]
  · intro now pool hq hcap
    rw [get_instance, hq, if_pos hcap]
    exact ⟨_, rfl⟩
  · intro now pool hq hcap
    rw [get_instance, hq, if_neg hcap]
  · intro now n
    obtain ⟨p, hacq, hq, hlen, hmax, _⟩ := acquireMany_spec now n (initPool n)
      rfl (fun e he => nomatch he) (by simp [initPool])
    refine ⟨p, hacq, ?_⟩
    rw [get_instance, hq, if_neg]
    rw [hlen, hmax]
    simp [initPool]
  · intro now now2 pool inst inst0 hq hlen hl
    have hmem := lookup_some_mem inst.id pool.instances inst0 hl
    rw [release_instance]
    split
    · rename_i hrec
      rw [get_instance]
      rw [hq]
      rw [if_pos]
      · exact ⟨_, rfl⟩
      · have hlt : (pool.instances.filter (fun e => e.1 ≠ inst.id)).length <
            pool.instances.length := by
          refine List.length_filter_lt_length_iff_exists.mpr ?_
          exact ⟨(inst.id, inst0), hmem, by simp⟩
        dsimp only
        omega
    · rw [get_instance]
      simp only [hq, List.nil_append]
      rw [lookup_map_update, hl]
      exact ⟨_, rfl⟩

/-- Concrete busy instance used to witness the release-then-acquire scenario. -/
def c7inst : BrowserInstance :=
  { id := "browser_0_7", in_use := true, created_at := 7, last_used := 7,
    usage_count := 3, max_usage := 50 }

/-- Concrete pool with one busy instance, empty idle queue, capacity 2. -/
def c7pool : BrowserInstancePool :=
  { max_instances := 2, instances := [("browser_0_7", c7inst)],
    available_instances := [] }

/-- Concrete idle instance sitting in the queue. -/
def c7idle : BrowserInstance :=
  { id := "i0", in_use := false, created_at := 0, last_used := 0,
    usage_count := 1, max_usage := 50 }

/-- Concrete pool whose idle queue holds `c7idle`. -/
def c7qpool : BrowserInstancePool :=
  { max_instances := 2, instances := [("i0", c7idle)],
    available_instances := ["i0"] }

/-- Witness for `pool_acquire_spec`: the queue-pop, creation and
release-then-acquire conjuncts applied at concrete pools. -/
theorem pool_acquire_spec_witness :
    get_instance 9 c7qpool = .ok ({ c7idle with in_use := true, last_used := 9 },
      { c7qpool with
          instances := assocSet c7qpool.instances "i0" { c7idle with in_use := true, last_used := 9 }
          available_instances := [] })
    ∧ (∃ p2, get_instance 9 c7pool = .ok ({ id := instanceIdOf 1 9, in_use := true, created_at := 9, last_used := 9, usage_count := 0 }, p2))
    ∧ (∃ r, get_instance 9 (release_instance c7inst c7pool) = .ok r) := by
  refine ⟨?_, ?_, ?_⟩
  · exact pool_acquire_spec.1 9 c7qpool "i0" [] c7idle rfl (by decide)
  · exact pool_acquire_spec.2.1 9 c7pool rfl (by decide)
  · exact pool_acquire_spec.2.2.2.2 9 9 c7pool c7inst c7inst rfl (by decide) (by decide)

/-! ## Claim C8 — release, recycling and id reuse

`release_instance`/`_recycle_instance` are exercised through an event-trace
model: a trace interleaves successful acquisitions, failed acquisitions and
releases, each step governed by the embedded pool operations. -/

/-- One observable pool event. -/
inductive PoolEvent where
  | acquired (now : Nat) (inst : BrowserInstance)
  | acquireFailed (now : Nat) (e : PoolError)
  | released (inst : BrowserInstance)

/-- `PoolTrace p evs q`: starting from pool `p`, the event list `evs` is a
run of the embedded `get_instance`/`release_instance` operations ending in
pool `q`. -/
inductive PoolTrace : BrowserInstancePool → List PoolEvent → BrowserInstancePool → Prop where
  | nil (p : BrowserInstancePool) : PoolTrace p [] p
  | acq {p q r : BrowserInstancePool} {evs : List PoolEvent} {now : Nat}
      {inst : BrowserInstance} :
      get_instance now p = .ok (inst, q) → PoolTrace q evs r →
      PoolTrace p (PoolEvent.acquired now inst :: evs) r
  | acqFail {p r : BrowserInstancePool} {evs : List PoolEvent} {now : Nat} {e : PoolError} :
      get_instance now p = .error e → PoolTrace p evs r →
      PoolTrace p (PoolEvent.acquireFailed now e :: evs) r
  | rel {p r : BrowserInstancePool} {evs : List PoolEvent} {inst : BrowserInstance} :
      PoolTrace (release_instance inst p) evs r →
      PoolTrace p (PoolEvent.released inst :: evs) r

/-- The dictionary invariant of `BrowserInstancePool.instances`: each entry is
keyed by its instance's id. -/
def KeysMatch (p : BrowserInstancePool) : Prop :=
  ∀ e ∈ p.instances, e.2.id = e.1

/-- Inserting at a key already present keeps the length. -/
theorem assocSet_length_mem {α : Type} (m : List (String × α)) (k : String)
    (v v2 : α) (h : (k, v) ∈ m) : (assocSet m k v2).length = m.length := by
  unfold assocSet
  rw [if_pos]
  · rw [List.length_map]
  · simp only [List.any_eq_true, decide_eq_true_eq]
    exact ⟨(k, v), h, rfl⟩

/-- One `get_instance` step preserves the key invariant, the capacity, the
capacity bound, and introduces no id other than `instanceIdOf _ now`. -/
theorem get_instance_step {now : Nat} {p q : BrowserInstancePool} {inst : BrowserInstance}
    (hget : get_instance now p = .ok (inst, q)) (hkm : KeysMatch p) :
    KeysMatch q ∧ q.max_instances = p.max_instances ∧
    (p.instances.length ≤ p.max_instances → q.instances.length ≤ q.max_instances) ∧
    (∀ rid, rid ∉ p.instances.map Prod.fst → (∀ c, rid ≠ instanceIdOf c now) →
      rid ∉ q.instances.map Prod.fst ∧ inst.id ≠ rid) := by
  unfold get_instance at hget
  split at hget
  · rename_i instance_id rest heq
    split at hget
    · rename_i inst0 hl
      simp only [Except.ok.injEq, Prod.mk.injEq] at hget
      obtain ⟨hinst, hq⟩ := hget
      subst hinst
      subst hq
      have hmem0 : (instance_id, inst0) ∈ p.instances := lookup_some_mem _ _ _ hl
      have hid0 : inst0.id = instance_id := hkm _ hmem0
      have hkeymem : instance_id ∈ p.instances.map Prod.fst :=
        List.mem_map.mpr ⟨(instance_id, inst0), hmem0, rfl⟩
      refine ⟨?_, rfl, ?_, ?_⟩
      · intro e he
        dsimp only at he
        rcases mem_assocSet _ _ _ e he with he1 | he2
        · rw [he1]
          exact hid0
        · exact hkm e he2
      · intro hlen
        have hlm := assocSet_length_mem p.instances instance_id inst0
          { inst0 with in_use := true, last_used := now } hmem0
        dsimp only
        omega
      · intro rid hrid hne
        constructor
        · intro hmem
          dsimp only at hmem
          rw [List.mem_map] at hmem
          obtain ⟨e, he, hfst⟩ := hmem
          rcases mem_assocSet _ _ _ e he with he1 | he2
          · rw [he1] at hfst
            apply hrid
            rw [← hfst]
            exact hkeymem
          · exact hrid (List.mem_map.mpr ⟨e, he2, hfst⟩)
        · intro hidr
          have h2 : inst0.id = rid := hidr
          have h3 : rid = instance_id := by rw [← h2, hid0]
          apply hrid
          rw [h3]
          exact hkeymem
    · exact absurd hget (by simp)
  · rename_i heq
    split at hget
    · rename_i hcap
      simp only [create_instance, Except.ok.injEq, Prod.mk.injEq] at hget
      obtain ⟨hinst, hq⟩ := hget
      subst hinst
      subst hq
      refine ⟨?_, rfl, ?_, ?_⟩
      · intro e he
        dsimp only at he
        rcases mem_assocSet _ _ _ e he with he1 | he2
        · rw [he1]
        · exact hkm e he2
      · intro hlen
        have hle := assocSet_length_le p.instances (instanceIdOf p.instances.length now)
          { id := instanceIdOf p.instances.length now, in_use := true, created_at := now,
            last_used := now, usage_count := 0 }
        dsimp only
        omega
      · intro rid hrid hne
        constructor
        · intro hmem
          dsimp only at hmem
          rw [List.mem_map] at hmem
          obtain ⟨e, he, hfst⟩ := hmem
          rcases mem_assocSet _ _ _ e he with he1 | he2
          · rw [he1] at hfst
            exact hne _ hfst.symm
          · exact hrid (List.mem_map.mpr ⟨e, he2, hfst⟩)
        · intro hidr
          exact hne _ hidr.symm
    · exact absurd hget (by simp)

/-- One `release_instance` step preserves the key invariant, the capacity,
does not grow the instance table, and introduces no new key. -/
theorem release_instance_step (inst : BrowserInstance) (p : BrowserInstancePool)
    (hkm : KeysMatch p) :
    KeysMatch (release_instance inst p) ∧
    (release_instance inst p).max_instances = p.max_instances ∧
    (release_instance inst p).instances.length ≤ p.instances.length ∧
    (∀ rid, rid ∉ p.instances.map Prod.fst →
      rid ∉ (release_instance inst p).instances.map Prod.fst) := by
  rw [release_instance]
  split
  · refine ⟨?_, rfl, ?_, ?_⟩
    · intro e he
      dsimp only at he
      rw [List.mem_filter] at he
      exact hkm e he.1
    · dsimp only
      exact List.length_filter_le _ _
    · intro rid hrid hmem
      dsimp only at hmem
      rw [List.mem_map] at hmem
      obtain ⟨e, he, hfst⟩ := hmem
      rw [List.mem_filter] at he
      exact hrid (List.mem_map.mpr ⟨e, he.1, hfst⟩)
  · refine ⟨?_, rfl, ?_, ?_⟩
    · intro e he
      dsimp only at he
      rw [List.mem_map] at he
      obtain ⟨e0, he0, hfe⟩ := he
      by_cases hc : e0.1 = inst.id
      · rw [if_pos hc] at hfe
        rw [← hfe]
        exact hc.symm
      · rw [if_neg hc] at hfe
        rw [← hfe]
        exact hkm e0 he0
    · dsimp only
      exact (List.length_map _ _).le
    · intro rid hrid hmem
      dsimp only at hmem
      rw [List.mem_map] at hmem
      obtain ⟨e, he, hfst⟩ := hmem
      rw [List.mem_map] at he
      obtain ⟨e0, he0, hfe⟩ := he
      apply hrid
      refine List.mem_map.mpr ⟨e0, he0, ?_⟩
      rw [← hfst, ← hfe]
      by_cases hc : e0.1 = inst.id
      · rw [if_pos hc]
      · rw [if_neg hc]

/-- Along any trace, the key invariant is preserved, the capacity is fixed,
and the instance count stays within capacity. -/
theorem poolTrace_invariant : ∀ {p evs q}, PoolTrace p evs q → KeysMatch p →
    KeysMatch q ∧ q.max_instances = p.max_instances ∧
    (p.instances.length ≤ p.max_instances → q.instances.length ≤ q.max_instances)
  | _, _, _, .nil _, hkm => ⟨hkm, rfl, fun h => h⟩
  | _, _, _, .acq hget htr, hkm => by
    obtain ⟨hk1, hm1, hl1, _⟩ := get_instance_step hget hkm
    obtain ⟨hk2, hm2, hl2⟩ := poolTrace_invariant htr hk1
    exact ⟨hk2, hm2.trans hm1, fun h => hl2 (hl1 h)⟩
  | _, _, _, .acqFail herr htr, hkm => poolTrace_invariant htr hkm
  | _, _, _, @PoolTrace.rel p r evs inst htr, hkm => by
    obtain ⟨hk1, hm1, hl1, _⟩ := release_instance_step inst p hkm
    obtain ⟨hk2, hm2, hl2⟩ := poolTrace_invariant htr hk1
    refine ⟨hk2, hm2.trans hm1, fun h => hl2 ?_⟩
    rw [hm1]
    omega

/-- Along any trace whose acquisitions all happen at times other than `tr`,
no acquired instance carries the id `instanceIdOf cr tr` unless that id was
already a key at the start. -/
theorem poolTrace_no_new_id (cr tr : Nat) : ∀ {p evs q}, PoolTrace p evs q →
    KeysMatch p → instanceIdOf cr tr ∉ p.instances.map Prod.fst →
    (∀ now inst, PoolEvent.acquired now inst ∈ evs → now ≠ tr) →
    ∀ now inst, PoolEvent.acquired now inst ∈ evs → inst.id ≠ instanceIdOf cr tr
  | _, _, _, .nil _, _, _, _, _, _, hmem => absurd hmem (List.not_mem_nil _)
  | _, _, _, @PoolTrace.acq p q r evs now0 inst0 hget htr, hkm, hrid, hnows,
      now1, inst1, hmem => by
    have hne : ∀ c, instanceIdOf cr tr ≠ instanceIdOf c now0 := by
      intro c hc
      exact hnows now0 inst0 (List.mem_cons_self _ _) ((instanceIdOf_inj _ _ _ _ hc).2).symm
    obtain ⟨hk1, _, _, hridstep⟩ := get_instance_step hget hkm
    obtain ⟨hrid1, hid0⟩ := hridstep _ hrid hne
    rcases List.mem_cons.mp hmem with he | he
    · cases he
      exact hid0
    · exact poolTrace_no_new_id cr tr htr hk1 hrid1
        (fun n i h => hnows n i (List.mem_cons_of_mem _ h)) now1 inst1 he
  | _, _, _, @PoolTrace.acqFail p r evs now0 e0 herr htr, hkm, hrid, hnows,
      now1, inst1, hmem => by
    rcases List.mem_cons.mp hmem with he | he
    · cases he
    · exact poolTrace_no_new_id cr tr htr hkm hrid
        (fun n i h => hnows n i (List.mem_cons_of_mem _ h)) now1 inst1 he
  | _, _, _, @PoolTrace.rel p r evs inst0 htr, hkm, hrid, hnows,
      now1, inst1, hmem => by
    obtain ⟨hk1, _, _, hkeys⟩ := release_instance_step inst0 p hkm
    rcases List.mem_cons.mp hmem with he | he
    · cases he
    · exact poolTrace_no_new_id cr tr htr hk1 (hkeys _ hrid)
        (fun n i h => hnows n i (List.mem_cons_of_mem _ h)) now1 inst1 he

/-- Claim C8 (amended): `release_instance` marks the instance idle and
increments its usage counter, re-enqueueing its id, when the incremented
counter is below `max_usage`; at or above the threshold it removes the id
from tracking and does not enqueue it; along any event trace the tracked
instance count never exceeds the pool capacity; and a recycled (or never
tracked) id is never returned by a subsequent acquire provided no later
acquisition occurs at the timestamp embedded in that id — without that
timestamp proviso the original claim fails, see the counterexample. -/
theorem pool_release_recycle :
    (∀ (inst : BrowserInstance) (pool : BrowserInstancePool),
      inst.usage_count + 1 < inst.max_usage →
      List.lookup inst.id (release_instance inst pool).instances =
        (List.lookup inst.id pool.instances).map
          (fun _ => { inst with in_use := false, usage_count := inst.usage_count + 1 }) ∧
      (release_instance inst pool).available_instances =
        pool.available_instances ++ [inst.id])
    ∧ (∀ (inst : BrowserInstance) (pool : BrowserInstancePool),
        inst.max_usage ≤ inst.usage_count + 1 →
        inst.id ∉ (release_instance inst pool).instances.map Prod.fst ∧
        (release_instance inst pool).available_instances = pool.available_instances)
    ∧ (∀ (p : BrowserInstancePool) (evs : List PoolEvent) (q : BrowserInstancePool),
        PoolTrace p evs q → KeysMatch p →
        p.instances.length ≤ p.max_instances →
        q.instances.length ≤ q.max_instances)
    ∧ (∀ (p : BrowserInstancePool) (evs : List PoolEvent) (q : BrowserInstancePool)
        (cr tr : Nat), PoolTrace p evs q → KeysMatch p →
        instanceIdOf cr tr ∉ p.instances.map Prod.fst →
        (∀ now inst, PoolEvent.acquired now inst ∈ evs → now ≠ tr) →
        ∀ now inst, PoolEvent.acquired now inst ∈ evs →
          inst.id ≠ instanceIdOf cr tr) := by
  refine ⟨?_, ?_, ?_, ?_⟩
  · intro inst pool h
    constructor
    · rw [release_instance]
      rw [if_neg (by dsimp only; omega)]
      dsimp only
      rw [lookup_map_update]
    · rw [release_instance]
      rw [if_neg (by dsimp only; omega)]
  · intro inst pool h
    constructor
    · rw [release_instance]
      rw [if_pos (by dsimp only; omega)]
      intro hmem
      dsimp only at hmem
      rw [List.mem_map] at hmem
      obtain ⟨e, he, hfst⟩ := hmem
      rw [List.mem_filter] at he
      have hne := he.2
      simp only [decide_eq_true_eq] at hne
      exact hne hfst
    · rw [release_instance]
      rw [if_pos (by dsimp only; omega)]
  · intro p evs q ht hkm hlen
    exact (poolTrace_invariant ht hkm).2.2 hlen
  · intro p evs q cr tr ht hkm hrid hnows
    exact poolTrace_no_new_id cr tr ht hkm hrid hnows

/-- A busy instance one release short of its recycle threshold. -/
def c8inst : BrowserInstance :=
  { id := "browser_0_0", in_use := true, created_at := 0, last_used := 0,
    usage_count := 49, max_usage := 50 }

/-- A capacity-1 pool tracking only `c8inst`. -/
def c8pool : BrowserInstancePool :=
  { max_instances := 1, instances := [("browser_0_0", c8inst)],
    available_instances := [] }

/-- The instance created after the recycle, at the same timestamp 0. -/
def c8new : BrowserInstance :=
  { id := "browser_0_0", in_use := true, created_at := 0, last_used := 0,
    usage_count := 0, max_usage := 50 }

/-- Pool state after recycling `c8inst` and acquiring again at time 0. -/
def c8q : BrowserInstancePool :=
  { max_instances := 1, instances := [("browser_0_0", c8new)],
    available_instances := [] }

/-- Counterexample to the original C8 reading: in the trace that recycles
`c8inst` and then acquires at the same integer timestamp, the acquire
returns an instance bearing exactly the recycled id, because
`f"browser_\x7bcount\x7d_\x7bint(time.time())\x7d"` reproduces the same string. -/
theorem pool_release_recycle_counterexample :
    c8inst.max_usage ≤ c8inst.usage_count + 1 ∧
    PoolTrace c8pool [PoolEvent.released c8inst, PoolEvent.acquired 0 c8new] c8q ∧
    c8new.id = c8inst.id := by
  refine ⟨by decide, ?_, by decide⟩
  refine PoolTrace.rel (PoolTrace.acq ?_ (PoolTrace.nil _))
  decide

/-- An idle-marked release example: usage far from the threshold. -/
def c8widle : BrowserInstance :=
  { id := "w0", in_use := true, created_at := 0, last_used := 3,
    usage_count := 1, max_usage := 50 }

/-- Pool tracking only `c8widle`. -/
def c8wpool : BrowserInstancePool :=
  { max_instances := 2, instances := [("w0", c8widle)],
    available_instances := [] }

/-- The instance created when acquiring from an empty capacity-1 pool at
time 7. -/
def c8wnew : BrowserInstance :=
  { id := "browser_0_7", in_use := true, created_at := 7, last_used := 7,
    usage_count := 0, max_usage := 50 }

/-- Pool state after that acquisition. -/
def c8wq : BrowserInstancePool :=
  { max_instances := 1, instances := [("browser_0_7", c8wnew)],
    available_instances := [] }

/-- Witness for `pool_release_recycle`: all four conjuncts applied at
concrete pools and traces. -/
theorem pool_release_recycle_witness :
    (List.lookup "w0" (release_instance c8widle c8wpool).instances =
      (List.lookup "w0" c8wpool.instances).map
        (fun _ => { c8widle with in_use := false, usage_count := c8widle.usage_count + 1 }) ∧
     (release_instance c8widle c8wpool).available_instances =
       c8wpool.available_instances ++ ["w0"]) ∧
    ("browser_0_0" ∉ (release_instance c8inst c8pool).instances.map Prod.fst ∧
     (release_instance c8inst c8pool).available_instances = c8pool.available_instances) ∧
    c8q.instances.length ≤ c8q.max_instances ∧
    c8wnew.id ≠ instanceIdOf 0 5 := by
  refine ⟨pool_release_recycle.1 c8widle c8wpool (by decide),
    pool_release_recycle.2.1 c8inst c8pool (by decide), ?_, ?_⟩
  · refine pool_release_recycle.2.2.1 c8pool
      [PoolEvent.released c8inst, PoolEvent.acquired 0 c8new] c8q
      ?_ (by unfold KeysMatch; decide) (by decide)
    refine PoolTrace.rel (PoolTrace.acq ?_ (PoolTrace.nil _))
    decide
  · refine pool_release_recycle.2.2.2 (initPool 1) [PoolEvent.acquired 7 c8wnew] c8wq
      0 5 (PoolTrace.acq (by decide) (PoolTrace.nil _)) (by unfold KeysMatch; decide) (by decide)
      ?_ 7 c8wnew (List.mem_cons_self _ _)
    intro now inst hmem
    rcases List.mem_cons.mp hmem with h | h
    · cases h
      decide
    · exact absurd h (List.not_mem_nil _)

/-! ## Claim C9 — task lifecycle

Embedding of `ConversionTask`, `ConversionQueue` and the per-task part of
`ParallelBrowserManager._worker_loop` / `_process_conversion_task`. The
browser-use agent calls are abstracted as an oracle supplying the outcomes of
selection extraction and betslip creation; result-dictionary fields not
relevant to the lifecycle (converted selections, processing time) are
elided. -/

/-- Embedding of the `ConversionTask` dataclass. -/
structure ConversionTask where
  task_id : String
  betslip_code : String
  source_bookmaker : String
  destination_bookmaker : String
  priority : Int := 0
  created_at : Nat
deriving DecidableEq

/-- The result dictionary produced by `_process_conversion_task`. -/
structure TaskResult where
  success : Bool
  error : Option String
  new_betslip_code : Option String
  task_id : String
deriving DecidableEq

/-- Embedding of `ConversionQueue` state: the bounded FIFO queue, the
processing dictionary and the completed dictionary. -/
structure ConversionQueue where
  max_size : Nat
  queue : List ConversionTask
  processing_tasks : List (String × ConversionTask)
  completed_tasks : List (String × TaskResult)
deriving DecidableEq

/-- Embedding of `ConversionQueue.add_task`: `Queue.put(block=False)`
succeeds when the queue is unbounded (`maxsize <= 0`) or below capacity. -/
def add_task (task : ConversionTask) (q : ConversionQueue) : Bool × ConversionQueue :=
  if q.max_size = 0 ∨ q.queue.length < q.max_size then
    (true, { q with queue := q.queue ++ [task] })
  else (false, q)

/-- Embedding of `ConversionQueue.get_task`: pop the FIFO head and record it
in `processing_tasks`; an empty queue yields `None`. -/
def get_task (q : ConversionQueue) : Option ConversionTask × ConversionQueue :=
  match q.queue with
  | [] => (none, q)
  | task :: rest =>
    (some task,
      { q with
          queue := rest
          processing_tasks := assocSet q.processing_tasks task.task_id task })

/-- Embedding of `ConversionQueue.complete_task`: drop the id from
`processing_tasks` (a missing id is ignored) and store the result in
`completed_tasks`. -/
def complete_task (task_id : String) (result : TaskResult) (q : ConversionQueue) :
    ConversionQueue :=
  { q with
      processing_tasks := q.processing_tasks.filter (fun e => e.1 ≠ task_id)
      completed_tasks := assocSet q.completed_tasks task_id result }

/-- Outcomes of the browser-use agent calls made while processing one task. -/
structure AgentOracle where
  extract : ConversionTask → Except String (List Selection)
  create : ConversionTask → List Selection → Except String String

/-- Message of the exception raised by pool acquisition (the stale-instance
`KeyError` stringifies to the quoted key in Python; the key itself stands in
for it here). -/
def poolErrMsg : PoolError → String
  | .exhausted => "No browser instances available and pool is at maximum capacity"
  | .staleInstance instance_id => instance_id

/-- Embedding of `ParallelBrowserManager._process_conversion_task`: acquire
an instance (an acquisition failure is caught by the outer handler with the
pool untouched), run extraction and creation, and release the instance on
every exit path of the inner body. -/
def process_conversion_task (oracle : AgentOracle) (now : Nat) (task : ConversionTask)
    (pool : BrowserInstancePool) : TaskResult × BrowserInstancePool :=
  match get_instance now pool with
  | .error e =>
    ({ success := false, error := some (poolErrMsg e), new_betslip_code := none,
       task_id := task.task_id }, pool)
  | .ok (inst, pool1) =>
    match oracle.extract task with
    | .error e =>
      ({ success := false, error := some e, new_betslip_code := none,
         task_id := task.task_id }, release_instance inst pool1)
    | .ok selections =>
      if selections.isEmpty then
        ({ success := false, error := some "No selections found in betslip",
           new_betslip_code := none, task_id := task.task_id },
         release_instance inst pool1)
      else
        match oracle.create task selections with
        | .error e =>
          ({ success := false, error := some e, new_betslip_code := none,
             task_id := task.task_id }, release_instance inst pool1)
        | .ok code =>
          ({ success := true, error := none, new_betslip_code := some code,
             task_id := task.task_id }, release_instance inst pool1)

/-- One iteration of `_worker_loop`: dequeue, process, complete. The third
component logs the `complete_task` calls made during the iteration. -/
def worker_iteration (oracle : AgentOracle) (now : Nat) (q : ConversionQueue)
    (pool : BrowserInstancePool) :
    ConversionQueue × BrowserInstancePool × List (String × TaskResult) :=
  match get_task q with
  | (none, q1) => (q1, pool, [])
  | (some task, q1) =>
    let r := process_conversion_task oracle now task pool
    (complete_task task.task_id r.1 q1, r.2, [(task.task_id, r.1)])

/-- A key mapped by some entry has a successful lookup. -/
theorem lookup_isSome_of_mem_key {α : Type} (k : String) :
    ∀ (m : List (String × α)), (∃ e ∈ m, e.1 = k) → ∃ w, List.lookup k m = some w
  | [], h => absurd h (by simp)
  | (a, b) :: es, h => by
    cases hbeq : (k == a) with
    | true => exact ⟨b, by simp [List.lookup, hbeq]⟩
    | false =>
      refine lookup_isSome_of_mem_key k es ?_ |>.imp ?_
      · obtain ⟨e, he, hk⟩ := h
        rcases List.mem_cons.mp he with he1 | he2
        · exfalso
          rw [he1] at hk
          rw [beq_eq_false_iff_ne] at hbeq
          exact hbeq hk.symm
        · exact ⟨e, he2, hk⟩
      · intro w hw
        simp [List.lookup, hbeq]
        exact hw

/-- Looking up a key appended behind entries that all miss it. -/
theorem lookup_append_right {α : Type} (k : String) (v : α) :
    ∀ (m : List (String × α)), (∀ e ∈ m, e.1 ≠ k) →
    List.lookup k (m ++ [(k, v)]) = some v
  | [], _ => by simp [List.lookup]
  | (a, b) :: es, h => by
    have hbeq : (k == a) = false := by
      rw [beq_eq_false_iff_ne]
      intro hq
      exact h (a, b) (List.mem_cons_self _ _) hq.symm
    simp only [List.cons_append, List.lookup, hbeq, cond_false]
    exact lookup_append_right k v es (fun e he => h e (List.mem_cons_of_mem _ he))

/-- Lookup after replacing every binding at a key (the overwrite branch of
`assocSet`). -/
theorem lookup_map_setkey {α : Type} (k : String) (v : α) :
    ∀ (m : List (String × α)),
    List.lookup k (m.map (fun e => if e.1 = k then (k, v) else e)) =
      (List.lookup k m).map (fun _ => v)
  | [] => rfl
  | (a, b) :: es => by
    by_cases h : a = k
    · subst h
      simp only [List.map_cons, if_pos rfl, List.lookup_cons, beq_self_eq_true, if_true,
        List.lookup_cons_self, Option.map_some]
      rfl
    · have hbeq : (k == a) = false := by
        simp only [beq_eq_false_iff_ne, ne_eq]
        exact fun hk => h hk.symm
      simp only [List.map_cons, if_neg h, List.lookup_cons, hbeq, cond_false]
      exact lookup_map_setkey k v es

/-- `assocSet` makes the inserted binding visible to `lookup`. -/
theorem assocSet_lookup_self {α : Type} (k : String) (v : α)
    (m : List (String × α)) : List.lookup k (assocSet m k v) = some v := by
  unfold assocSet
  split
  · rename_i hany
    rw [lookup_map_setkey]
    simp only [List.any_eq_true, decide_eq_true_eq] at hany
    obtain ⟨w, hw⟩ := lookup_isSome_of_mem_key k m hany
    rw [hw]
    rfl
  · rename_i hany
    refine lookup_append_right k v m ?_
    intro e he hk
    apply hany
    rw [List.any_eq_true]
    exact ⟨e, he, by simp [hk]⟩

/-- Filtering a key out of an association list removes it from the key set. -/
theorem not_mem_keys_filter {α : Type} (k : String) (m : List (String × α)) :
    k ∉ (m.filter (fun e => e.1 ≠ k)).map Prod.fst := by
  intro hmem
  rw [List.mem_map] at hmem
  obtain ⟨e, he, hfst⟩ := hmem
  rw [List.mem_filter] at he
  have hne := he.2
  simp only [decide_eq_true_eq] at hne
  exact hne hfst

/-- Every branch of `_process_conversion_task` stamps the result with the
task's id. -/
theorem process_task_id (oracle : AgentOracle) (now : Nat) (task : ConversionTask)
    (pool : BrowserInstancePool) :
    (process_conversion_task oracle now task pool).1.task_id = task.task_id := by
  unfold process_conversion_task
  split
  · rfl
  · split
    · rfl
    · split
      · rfl
      · split
        · rfl
        · rfl

/-- `_process_conversion_task` releases the acquired instance on every exit
path; when acquisition itself fails the pool is untouched. -/
theorem process_releases (oracle : AgentOracle) (now : Nat) (task : ConversionTask)
    (pool : BrowserInstancePool) :
    (∃ e, get_instance now pool = .error e ∧
      (process_conversion_task oracle now task pool).2 = pool) ∨
    (∃ inst pool1, get_instance now pool = .ok (inst, pool1) ∧
      (process_conversion_task oracle now task pool).2 = release_instance inst pool1) := by
  cases hg : get_instance now pool with
  | error e =>
    refine Or.inl ⟨e, rfl, ?_⟩
    unfold process_conversion_task
    rw [hg]
  | ok pr =>
    obtain ⟨inst, pool1⟩ := pr
    refine Or.inr ⟨inst, pool1, rfl, ?_⟩
    unfold process_conversion_task
    rw [hg]
    dsimp only
    split
    · rfl
    · split
      · rfl
      · split
        · rfl
        · rfl

/-- Claim C9: a dequeued task is recorded in `processing_tasks`; one worker
iteration then makes exactly one `complete_task` call for it, after which its
id maps to the produced result in `completed_tasks` and is gone from
`processing_tasks`; and the pool instance checked out for the task is
released on every exit path of task processing (with the pool untouched when
acquisition itself fails). -/
theorem task_lifecycle :
    (∀ (oracle : AgentOracle) (now : Nat) (q : ConversionQueue)
       (pool : BrowserInstancePool) (task : ConversionTask) (q1 : ConversionQueue),
      get_task q = (some task, q1) →
      List.lookup task.task_id q1.processing_tasks = some task ∧
      ∃ result pool2,
        worker_iteration oracle now q pool =
          (complete_task task.task_id result q1, pool2, [(task.task_id, result)]) ∧
        result.task_id = task.task_id ∧
        List.lookup task.task_id (complete_task task.task_id result q1).completed_tasks =
          some result ∧
        task.task_id ∉ (complete_task task.task_id result q1).processing_tasks.map Prod.fst)
    ∧ (∀ (oracle : AgentOracle) (now : Nat) (task : ConversionTask)
        (pool : BrowserInstancePool),
        (∃ e, get_instance now pool = .error e ∧
          (process_conversion_task oracle now task pool).2 = pool) ∨
        (∃ inst pool1, get_instance now pool = .ok (inst, pool1) ∧
          (process_conversion_task oracle now task pool).2 = release_instance inst pool1)) := by
  refine ⟨?_, ?_⟩
  · intro oracle now q pool task q1 hget
    have hcopy := hget
    unfold get_task at hget
    split at hget
    · simp at hget
    · rename_i t rest heq
      simp only [Prod.mk.injEq, Option.some.injEq] at hget
      obtain ⟨ht, hq1⟩ := hget
      subst hq1
      rw [ht] at hcopy ⊢
      refine ⟨assocSet_lookup_self _ _ _, ?_⟩
      refine ⟨(process_conversion_task oracle now task pool).1,
        (process_conversion_task oracle now task pool).2, ?_,
        process_task_id oracle now task pool, ?_, ?_⟩
      · rw [worker_iteration, hcopy]
      · exact assocSet_lookup_self _ _ _
      · exact not_mem_keys_filter _ _
  · intro oracle now task pool
    exact process_releases oracle now task pool

/-- Concrete task used to witness the lifecycle theorem. -/
def c9task : ConversionTask :=
  { task_id := "t1", betslip_code := "ABC123", source_bookmaker := "bet9ja",
    destination_bookmaker := "sportybet", priority := 0, created_at := 0 }

/-- Queue holding only `c9task`. -/
def c9queue : ConversionQueue :=
  { max_size := 100, queue := [c9task], processing_tasks := [],
    completed_tasks := [] }

/-- Queue state after dequeuing `c9task`. -/
def c9q1 : ConversionQueue :=
  { max_size := 100, queue := [], processing_tasks := [("t1", c9task)],
    completed_tasks := [] }

/-- Oracle whose extraction yields no selections. -/
def c9oracle : AgentOracle :=
  { extract := fun _ => .ok [], create := fun _ s => .error "unused" }

/-- Witness for `task_lifecycle` at a concrete queue, task, oracle and
pool. -/
theorem task_lifecycle_witness :
    (List.lookup "t1" c9q1.processing_tasks = some c9task ∧
     ∃ result pool2,
       worker_iteration c9oracle 0 c9queue (initPool 1) =
         (complete_task "t1" result c9q1, pool2, [("t1", result)]) ∧
       result.task_id = "t1" ∧
       List.lookup "t1" (complete_task "t1" result c9q1).completed_tasks = some result ∧
       "t1" ∉ (complete_task "t1" result c9q1).processing_tasks.map Prod.fst) ∧
    ((∃ e, get_instance 0 (initPool 1) = .error e ∧
        (process_conversion_task c9oracle 0 c9task (initPool 1)).2 = initPool 1) ∨
     (∃ inst pool1, get_instance 0 (initPool 1) = .ok (inst, pool1) ∧
        (process_conversion_task c9oracle 0 c9task (initPool 1)).2 =
          release_instance inst pool1)) :=
  ⟨task_lifecycle.1 c9oracle 0 c9queue (initPool 1) c9task c9q1 (by decide),
   task_lifecycle.2 c9oracle 0 c9task (initPool 1)⟩

/-- Claim C10: when either argument is nonpositive, `compare_odds` does not
report "within tolerance"; it returns `false` with an infinite difference,
for every tolerance value. -/
theorem compare_odds_nonpositive (dtol x y : ℚ) (topt : Option ℚ)
    (h : x ≤ 0 ∨ y ≤ 0) :
    compare_odds dtol x y topt = (false, .infinite) := by
  simp only [compare_odds]
  rw [if_pos h]

/-- Witness for `compare_odds_nonpositive` at a concrete input. -/
theorem compare_odds_nonpositive_witness :
    compare_odds (1/20) 0 (5/2) none = (false, .infinite) :=
  compare_odds_nonpositive (1/20) 0 (5/2) none (Or.inl le_rfl)

end Konvato
